import Mathlib

/-!
# Verification of the cruise Pricing & Reservation Engine

Shallow embedding of the core of the `avi413/cruise` repository:

* `services/pricing-service/app/domain.py` — the quote calculator
  (`quote_with_overrides`, `_discount_rate`, `_demand_multiplier`),
* `services/pricing-service/app/main.py` — currency conversion
  (`_money_convert_cents`, `_get_fx_rate`, `_convert_quote_currency`) and the
  `create_quote` endpoint pipeline,
* `services/booking-service/app/main.py` — the inventory ledger and the
  hold/confirm state machine (`create_hold`, `confirm_booking`,
  `_release_expired_holds`, `_ensure_inventory_row`,
  `_ensure_category_inventory_row`, the capacity upsert endpoints).

Modelling conventions:

* Python `int` money amounts (cents) are `ℤ`; Python `float` multipliers and
  rates are idealised as exact rationals `ℚ`.
* Python `datetime`/`date` values are integers (`ℤ`): only ordering and
  adding a number of minutes/days matter to the embedded code.
* Python strings are Lean `String`s; `str.strip`/`str.upper`/`str.lower`/
  `str.startswith` are embedded as character-list functions (`pyStrip`,
  `pyUpper`, `pyLower`, `pyStartsWith`), which agree with Python on the
  ASCII data the services handle.
* Python `round` (banker's rounding) is `roundHalfEven`; `Decimal`
  `ROUND_HALF_UP` (ties away from zero) is `roundHalfUp`.
* Database rows are entries of in-memory lists; SQLAlchemy `query(...).first()`
  is `List.find?`, and an update of the fetched row is `updateFirst`.
-/

deriving instance DecidableEq for Except

/-! ## Embeddings of the Python string primitives -/

/-- Python `str.upper()` (ASCII). -/
def pyUpper (s : String) : String := ⟨s.data.map Char.toUpper⟩

/-- Python `str.lower()` (ASCII). -/
def pyLower (s : String) : String := ⟨s.data.map Char.toLower⟩

/-- Python `str.strip()`: drop leading and trailing whitespace. -/
def pyStrip (s : String) : String :=
  ⟨((s.data.dropWhile Char.isWhitespace).reverse.dropWhile Char.isWhitespace).reverse⟩

/-- Python `str.startswith(p)`. -/
def pyStartsWith (s p : String) : Bool := p.data.isPrefixOf s.data

/-- `(s or "").strip().upper()`: the normalisation the services apply to
category codes and currency codes. -/
def pyNormUpper (s : Option String) : String := pyUpper (pyStrip (s.getD ""))

theorem pyStartsWith_append (p t : String) : pyStartsWith (p ++ t) p = true := by
  unfold pyStartsWith
  rw [String.data_append]
  induction p.data with
  | nil => simp [List.isPrefixOf]
  | cons c cs ih => simpa [List.isPrefixOf] using ih

/-! ## Rounding

`roundHalfEven` embeds Python's built-in `round` (round-half-to-even), used by
`domain.py` for discounts and taxes; `roundHalfUp` embeds
`Decimal.to_integral_value(rounding=ROUND_HALF_UP)` (ties away from zero),
used by `_money_convert_cents` in the pricing service. -/

def roundHalfEven (x : ℚ) : ℤ :=
  let f := ⌊x⌋
  let frac := x - (f : ℚ)
  if frac < 1/2 then f
  else if 1/2 < frac then f + 1
  else if f % 2 = 0 then f else f + 1

def roundHalfUp (x : ℚ) : ℤ :=
  if 0 ≤ x then ⌊x + 1/2⌋ else -⌊-x + 1/2⌋

theorem roundHalfEven_nonneg {x : ℚ} (hx : 0 ≤ x) : 0 ≤ roundHalfEven x := by
  have hf : (0 : ℤ) ≤ ⌊x⌋ := Int.floor_nonneg.mpr hx
  unfold roundHalfEven
  dsimp only
  split <;> [skip; split] <;> [omega; omega; (split <;> omega)]

theorem roundHalfUp_nonpos {x : ℚ} (hx : x ≤ 0) : roundHalfUp x ≤ 0 := by
  unfold roundHalfUp
  split
  · have hx0 : x = 0 := le_antisymm hx (by assumption)
    subst hx0
    norm_num
  · have : (0 : ℤ) ≤ ⌊-x + 1/2⌋ := by
      apply Int.floor_nonneg.mpr
      have : (0 : ℚ) ≤ -x := by linarith
      linarith
    omega

/-- `roundHalfUp` is within a half of its argument. -/
theorem abs_roundHalfUp_sub_le (x : ℚ) : |(roundHalfUp x : ℚ) - x| ≤ 1/2 := by
  unfold roundHalfUp
  split
  · rw [abs_le]
    constructor
    · have := Int.lt_floor_add_one (x + 1/2)
      push_cast
      linarith
    · have := Int.floor_le (x + 1/2)
      push_cast at this ⊢
      linarith
  · rw [abs_le]
    constructor
    · have := Int.floor_le (-x + 1/2)
      push_cast
      linarith
    · have := Int.lt_floor_add_one (-x + 1/2)
      push_cast at this ⊢
      linarith

/-! ## Pricing domain (`services/pricing-service/app/domain.py`) -/

inductive Paxtype where
  | adult | child | infant
  deriving DecidableEq, Repr

/-- `Paxtype` literals, as the Python string tags. -/
def paxName : Paxtype → String
  | .adult => "adult" | .child => "child" | .infant => "infant"

inductive CabinType where
  | inside | oceanview | balcony | suite
  deriving DecidableEq, Repr

structure Guest where
  paxtype : Paxtype
  deriving DecidableEq, Repr

/-- `domain.CategoryPriceRule`; dates are integers (only ordering matters). -/
structure CategoryPriceRule where
  category_code : String
  currency : String
  min_guests : ℤ
  price_per_person : ℤ
  price_type : String := "regular"
  effective_start_date : Option ℤ := none
  effective_end_date : Option ℤ := none
  deriving DecidableEq, Repr

structure QuoteRequest where
  sailing_date : Option ℤ
  cabin_type : CabinType
  guests : List Guest
  coupon_code : Option String
  loyalty_tier : Option String
  cabin_category_code : Option String := none
  currency : String := "USD"
  price_type : String := "regular"
  deriving DecidableEq, Repr

structure QuoteLine where
  code : String
  description : String
  amount : ℤ
  deriving DecidableEq, Repr

structure Quote where
  currency : String
  subtotal : ℤ
  discounts : ℤ
  taxes_fees : ℤ
  total : ℤ
  lines : List QuoteLine
  deriving DecidableEq, Repr

/-- `domain.PricingOverrides`; the Python dicts become association lists so
that dict truthiness (`None`/empty vs non-empty) is preserved. -/
structure PricingOverrides where
  base_by_pax : Option (List (Paxtype × ℤ)) := none
  cabin_multiplier : Option (List (CabinType × ℚ)) := none
  demand_multiplier : Option ℚ := none
  category_prices : Option (List CategoryPriceRule) := none

/-- Python `dict.get` / `dict[k]` on an association list (unique keys). -/
def alistGet? [DecidableEq κ] (l : List (κ × α)) (k : κ) : Option α :=
  (l.find? (fun e => e.1 = k)).map (·.2)

inductive PricingError where
  | valueError (msg : String)
  | invalidCurrency (field : String)
  | missingFxRate (src dst : String)
  | invalidFxRate
  deriving DecidableEq, Repr

/-- `_BASE_BY_PAX` (cents). -/
def defaultBaseByPax : Paxtype → ℤ
  | .adult => 100000 | .child => 60000 | .infant => 10000

/-- `_CABIN_MULTIPLIER`. -/
def defaultCabinMultiplier : CabinType → ℚ
  | .inside => 1 | .oceanview => 12/10 | .balcony => 14/10 | .suite => 2

/-- `domain._demand_multiplier`. -/
def demandMultiplier (sailing_date : Option ℤ) (today : ℤ) : ℚ :=
  match sailing_date with
  | none => 1
  | some d =>
    let days := d - today
    if days < 0 then 125/100
    else if days ≤ 30 then 120/100
    else if days ≤ 90 then 110/100
    else 1

/-- `domain._discount_rate`. -/
def discountRate (coupon_code loyalty_tier : Option String) (child_count : ℤ) : ℚ :=
  let code := pyNormUpper coupon_code
  let tier := pyNormUpper loyalty_tier
  let rate : ℚ := 0
  let rate := if code = "WELCOME10" then max rate (10/100) else rate
  let rate := if code = "FAMILY5" ∧ 2 ≤ child_count then max rate (5/100) else rate
  let rate := if tier = "GOLD" then max rate (15/100) else rate
  let rate := if tier = "SILVER" then max rate (7/100) else rate
  rate

/-- `(x or "regular").strip().lower() or "regular"` — the price-type (rate
plan) normalisation `_norm_pt` of `quote_with_overrides`. -/
def normPt (x : String) : String :=
  let b := if x = "" then "regular" else x
  let t := pyLower (pyStrip b)
  if t = "" then "regular" else t

/-- `s or None` for strings: `None` when empty. -/
def strOrNone (s : String) : Option String := if s = "" then none else some s

/-- Python `int(q)`: truncation toward zero. -/
def intTruncate (q : ℚ) : ℤ := if 0 ≤ q then ⌊q⌋ else -⌊-q⌋

/-- Number of guests of one pax type (`pax_counts` of `quote_with_overrides`). -/
def countPax (guests : List Guest) (p : Paxtype) : ℤ :=
  (guests.filter (fun g => g.paxtype = p)).length

/-- The discount / taxes / total tail shared verbatim by the category branch
(domain.py lines 205-235) and the cabin branch (lines 271-301) of
`quote_with_overrides`. -/
def finishQuote (currency : String) (fareLines : List QuoteLine) (subtotal : ℤ)
    (discount_rate : ℚ) : Quote :=
  let discounts := roundHalfEven ((subtotal : ℚ) * discount_rate)
  let taxable := subtotal - discounts
  let taxes_fees := roundHalfEven ((taxable : ℚ) * (8/100))
  { currency := currency
    subtotal := subtotal
    discounts := discounts
    taxes_fees := taxes_fees
    total := taxable + taxes_fees
    lines := fareLines
      ++ (if discounts = 0 then [] else
            [⟨"discount", "Discount (" ++ toString (intTruncate (discount_rate * 100)) ++ "%)",
              -discounts⟩])
      ++ (if taxes_fees = 0 then [] else
            [⟨"taxes_fees", "Estimated taxes & fees (8%)", taxes_fees⟩]) }

/-- `_date_ok` of `quote_with_overrides`. -/
def dateOk (sail : Option ℤ) (r : CategoryPriceRule) : Bool :=
  match sail with
  | none => r.effective_start_date.isNone && r.effective_end_date.isNone
  | some d =>
    (match r.effective_start_date with | some s => decide (s ≤ d) | none => true)
      && (match r.effective_end_date with | some e => decide (d ≤ e) | none => true)

/-- First element with the maximal key: `sorted(l, key=f, reverse=True)[0]`
(Python sort is stable, so ties keep the earlier element). -/
def argmaxFirstBy (f : α → ℤ) : List α → Option α
  | [] => none
  | x :: xs => some (xs.foldl (fun b y => if f b < f y then y else b) x)

/-- First element with the minimal key: `sorted(l, key=f)[0]`. -/
def argminFirstBy (f : α → ℤ) : List α → Option α
  | [] => none
  | x :: xs => some (xs.foldl (fun b y => if f y < f b then y else b) x)

/-- The occupancy-bracket tie-break of `quote_with_overrides` (domain.py lines
180-188): the rule with the largest `min_guests ≤ guest_count` when one
exists, otherwise the rule with the smallest `min_guests`. -/
def pickRule (rules : List CategoryPriceRule) (guest_count : ℕ) : Option CategoryPriceRule :=
  let le := rules.filter (fun r => decide (r.min_guests ≤ (guest_count : ℤ)))
  match le with
  | [] => argminFirstBy (fun r => r.min_guests) rules
  | _ :: _ => argmaxFirstBy (fun r => r.min_guests) le

/-- The category-pricing branch of `quote_with_overrides` applied to the
selected rule (domain.py lines 190-235). -/
def categoryBuild (req : QuoteRequest) (categoryCode : String) (best : CategoryPriceRule) :
    Except PricingError Quote :=
  let guest_count : ℤ := req.guests.length
  let min_guests := max 1 best.min_guests
  let billable := max guest_count min_guests
  let unit := best.price_per_person
  if unit < 0 then
    .error (.valueError "Invalid category pricing rule: price_per_person must be >= 0")
  else
    let subtotal := unit * billable
    let pt := normPt best.price_type
    let fareLine : QuoteLine :=
      { code := "fare.category." ++ categoryCode ++ "." ++ pt
        description := "Cabin category " ++ categoryCode ++ " (" ++ best.currency ++ ") [" ++ pt
          ++ "] - " ++ toString billable ++ " pax billed (min " ++ toString min_guests ++ ")"
        amount := subtotal }
    let rate := discountRate req.coupon_code req.loyalty_tier (countPax req.guests Paxtype.child)
    let currency := if best.currency ≠ "" then best.currency
                    else if req.currency ≠ "" then req.currency else "USD"
    .ok (finishQuote currency [fareLine] subtotal rate)

/-- The cabin-type fare loop of `quote_with_overrides` (domain.py lines
250-269): one `fare.<paxtype>` line per present pax type, accumulating the
subtotal; Python dicts preserve insertion order adult, child, infant. -/
def cabinFareLines (base : Paxtype → ℤ) (cabin_mult demand_mult : ℚ) (guests : List Guest) :
    List QuoteLine × ℤ :=
  [Paxtype.adult, Paxtype.child, Paxtype.infant].foldl
    (fun acc p =>
      let count := countPax guests p
      if count = 0 then acc
      else
        let amount := roundHalfEven ((base p : ℚ) * cabin_mult * demand_mult) * count
        (acc.1 ++ [{ code := "fare." ++ paxName p
                     description := "Base fare (" ++ paxName p ++ ") x" ++ toString count
                     amount := amount }],
         acc.2 + amount))
    ([], 0)

/-- The effective cabin multiplier of the cabin branch (domain.py lines
237-239): the tenant override when its dict is present and has the key, else
the system default. An override dict that is `None` or empty, or lacks the
key, falls back to the default, exactly as the Python truthiness tests do. -/
def effCabinMult (req : QuoteRequest) (overrides : Option PricingOverrides) : ℚ :=
  match overrides with
  | some ov =>
    match ov.cabin_multiplier with
    | some cm => (alistGet? cm req.cabin_type).getD (defaultCabinMultiplier req.cabin_type)
    | none => defaultCabinMultiplier req.cabin_type
  | none => defaultCabinMultiplier req.cabin_type

/-- The effective demand multiplier (domain.py lines 241-243): a tenant
`demand_multiplier` override replaces the computed one entirely. -/
def effDemandMult (req : QuoteRequest) (today : ℤ) (overrides : Option PricingOverrides) : ℚ :=
  match overrides with
  | some ov =>
    match ov.demand_multiplier with
    | some m => m
    | none => demandMultiplier req.sailing_date today
  | none => demandMultiplier req.sailing_date today

/-- The effective per-pax base fares (domain.py lines 245-248): the override
dict merged over the system defaults, override winning per key. -/
def effBase (overrides : Option PricingOverrides) : Paxtype → ℤ := fun p =>
  match overrides with
  | some ov =>
    match ov.base_by_pax with
    | some bl => (alistGet? bl p).getD (defaultBaseByPax p)
    | none => defaultBaseByPax p
  | none => defaultBaseByPax p

/-- The cabin-type fallback branch of `quote_with_overrides` (domain.py lines
237-302). -/
def cabinQuote (req : QuoteRequest) (today : ℤ) (overrides : Option PricingOverrides) :
    Except PricingError Quote :=
  let r := cabinFareLines (effBase overrides) (effCabinMult req overrides)
    (effDemandMult req today overrides) req.guests
  let rate := discountRate req.coupon_code req.loyalty_tier (countPax req.guests Paxtype.child)
  .ok (finishQuote (if req.currency ≠ "" then req.currency else "USD") r.1 r.2 rate)

/-- `domain.quote_with_overrides`. -/
def quoteWithOverrides (req : QuoteRequest) (today : ℤ) (overrides : Option PricingOverrides) :
    Except PricingError Quote :=
  if req.guests = [] then .error (.valueError "At least one guest is required")
  else
    match strOrNone (pyNormUpper req.cabin_category_code), overrides with
    | some code, some ov =>
      match ov.category_prices with
      | some cps =>
        if cps = [] then cabinQuote req today overrides
        else
          let rules := cps.filter (fun r => pyNormUpper (some r.category_code) = code)
          let rules :=
            match strOrNone (pyNormUpper (some req.currency)) with
            | some rc =>
              let curMatches := rules.filter (fun r => pyNormUpper (some r.currency) = rc)
              if curMatches = [] then rules else curMatches
            | none => rules
          let desired := normPt req.price_type
          let ptMatches := rules.filter (fun r => normPt r.price_type = desired)
          let rules :=
            if ptMatches ≠ [] then ptMatches
            else if desired ≠ "regular" then
              let reg := rules.filter (fun r => normPt r.price_type = "regular")
              if reg = [] then rules else reg
            else rules
          let rules := rules.filter (dateOk req.sailing_date)
          match pickRule rules req.guests.length with
          | some best => categoryBuild req code best
          | none => cabinQuote req today overrides
      | none => cabinQuote req today overrides
    | _, _ => cabinQuote req today overrides

/-! ## Currency conversion and the quote endpoint
(`services/pricing-service/app/main.py`) -/

/-- One entry of the `_FX_RATES_BY_COMPANY[(base, quote)]` dict. -/
structure FxRow where
  base : String
  quote : String
  rate : ℚ
  deriving DecidableEq

/-- `_normalize_currency`. -/
def normalizeCurrency (code : String) (field : String) : Except PricingError String :=
  let c := pyUpper (pyStrip code)
  if c.length = 3 ∧ c.data.all Char.isAlpha then .ok c
  else .error (.invalidCurrency field)

/-- `_get_fx_rate`: a stored direct rate multiplies, a stored inverse rate
divides; `true` stands for the "mul" op. -/
def getFxRate (rates : List FxRow) (base quote : String) : Option (ℚ × Bool) :=
  match rates.find? (fun r => r.base = base ∧ r.quote = quote) with
  | some r => some (r.rate, true)
  | none =>
    match rates.find? (fun r => r.base = quote ∧ r.quote = base) with
    | some r => some (r.rate, false)
    | none => none

/-- `_money_convert_cents` without its guard on the rate (the caller below
checks the rate once; it is the same for every line of a conversion). -/
def moneyConvertCents (amount : ℤ) (rate : ℚ) (isMul : Bool) : ℤ :=
  roundHalfUp (if isMul then (amount : ℚ) * rate else (amount : ℚ) / rate)

/-- The per-line conversion inside `_convert_quote_currency`. -/
def convLine (rate : ℚ) (isMul : Bool) (l : QuoteLine) : QuoteLine :=
  { l with amount := moneyConvertCents l.amount rate isMul }

/-- `_convert_quote_currency`: convert every line, then recompute the
aggregates by re-summing the converted lines. -/
def convertQuoteCurrency (rates : List FxRow) (q : Quote) (target : String) :
    Except PricingError Quote :=
  match normalizeCurrency q.currency "quote.currency" with
  | .error e => .error e
  | .ok src =>
    match normalizeCurrency target "currency" with
    | .error e => .error e
    | .ok dst =>
      if src = dst then .ok q
      else
        match getFxRate rates src dst with
        | none => .error (.missingFxRate src dst)
        | some (rate, isMul) =>
          if rate ≤ 0 then .error .invalidFxRate
          else
            let cl := q.lines.map (convLine rate isMul)
            .ok { currency := dst
                  subtotal :=
                    ((cl.filter (fun l => pyStartsWith l.code "fare.")).map (fun l => l.amount)).sum
                  discounts :=
                    ((cl.filter (fun l => l.code = "discount" ∧ l.amount < 0)).map
                      (fun l => -l.amount)).sum
                  taxes_fees :=
                    ((cl.filter (fun l => l.code = "taxes_fees")).map (fun l => l.amount)).sum
                  total := (cl.map (fun l => l.amount)).sum
                  lines := cl }

/-- The request body of `POST /quote` (`QuoteRequestIn`). -/
structure QuotePayloadIn where
  sailing_id : Option String := none
  sailing_date : Option ℤ := none
  cabin_type : CabinType := .inside
  cabin_category_code : Option String := none
  price_type : String := "regular"
  guests : List Guest
  coupon_code : Option String := none
  loyalty_tier : Option String := none
  currency : Option String := none

/-- One cell of the per-sailing cruise price table
(`_CRUISE_PRICE_TABLES_BY_COMPANY`). -/
structure CruisePriceCell where
  cabin_category_code : String
  price_category_code : String
  currency : String
  min_guests : ℤ
  price_per_person : ℤ

/-- The module-level pricing stores, as association lists keyed by company. -/
structure PricingStores where
  overridesByCompany : List (String × PricingOverrides) := []
  fxRatesByCompany : List (String × List FxRow) := []
  cruiseTablesByCompany : List (String × List (String × List ((String × String) × CruisePriceCell))) := []

/-- `_company_key`. -/
def companyKey (x : Option String) : String := pyStrip (x.getD "")

/-- `_effective_overrides`: a company's own overrides only, no global
fallback; `None` without a company id. -/
def effectiveOverrides (store : List (String × PricingOverrides)) (company : Option String) :
    Option PricingOverrides :=
  let key := companyKey company
  if key = "" then none else alistGet? store key

/-- The request-building stage of the `create_quote` endpoint (`POST /quote`,
lines 248-297): resolve the currency, build the `QuoteRequest`, and merge a
cruise-price-table cell in front of the tenant's category rules when one
matches.

`defaultCurrency` stands for the `_company_default_currency` lookup, a
cross-service HTTP read of the tenant's settings that is outside this
repository's pricing code; it returns a non-empty currency or `None`. -/
def createQuoteStage (stores : PricingStores) (defaultCurrency : Option String)
    (payload : QuotePayloadIn) (xCompanyId : Option String) :
    QuoteRequest × Option PricingOverrides :=
  let cur0 := pyUpper (pyStrip (payload.currency.getD ""))
  let dc := defaultCurrency.getD ""
  let cur := if cur0 = "" then (if dc = "" then "USD" else dc) else cur0
  let company := companyKey xCompanyId
  let req0 : QuoteRequest :=
    { sailing_date := payload.sailing_date
      cabin_type := payload.cabin_type
      cabin_category_code := payload.cabin_category_code
      price_type := if payload.price_type = "" then "regular" else payload.price_type
      guests := payload.guests
      coupon_code := payload.coupon_code
      loyalty_tier := payload.loyalty_tier
      currency := cur }
  let overrides0 := effectiveOverrides stores.overridesByCompany xCompanyId
  let sid := pyStrip (payload.sailing_id.getD "")
  let cabinCode := pyUpper (pyStrip (payload.cabin_category_code.getD ""))
  let pt := normPt payload.price_type
  if company ≠ "" ∧ sid ≠ "" ∧ cabinCode ≠ "" then
      match alistGet?
          ((alistGet? ((alistGet? stores.cruiseTablesByCompany company).getD []) sid).getD [])
          (cabinCode, pt) with
      | some cell =>
        let cellCur0 := pyUpper (pyStrip (if cell.currency = "" then cur else cell.currency))
        let cellCur := if cellCur0 = "" then cur else cellCur0
        let rule : CategoryPriceRule :=
          { category_code := cabinCode
            price_type := pt
            currency := cellCur
            min_guests := if cell.min_guests = 0 then 2 else cell.min_guests
            price_per_person := cell.price_per_person }
        let mergedRules :=
          rule :: (match overrides0 with | some o => (o.category_prices).getD [] | none => [])
        let ov : PricingOverrides :=
          { base_by_pax := match overrides0 with | some o => o.base_by_pax | none => none
            cabin_multiplier := match overrides0 with | some o => o.cabin_multiplier | none => none
            demand_multiplier := match overrides0 with | some o => o.demand_multiplier | none => none
            category_prices := some mergedRules }
        let req : QuoteRequest :=
          { req0 with cabin_category_code := some cabinCode, price_type := pt, currency := cellCur }
        (req, some ov)
      | none => (req0, overrides0)
  else (req0, overrides0)

/-- The `create_quote` endpoint (`POST /quote`): quote, then convert the
result when the caller asked for a currency and a tenant is known. -/
def createQuote (stores : PricingStores) (defaultCurrency : Option String)
    (payload : QuotePayloadIn) (xCompanyId : Option String) (today : ℤ) :
    Except PricingError Quote :=
  let stage := createQuoteStage stores defaultCurrency payload xCompanyId
  let company := companyKey xCompanyId
  match quoteWithOverrides stage.1 today stage.2 with
  | .error e => .error e
  | .ok q =>
    if (payload.currency.getD "") ≠ "" ∧ company ≠ "" then
      convertQuoteCurrency ((alistGet? stores.fxRatesByCompany company).getD []) q
        (payload.currency.getD "")
    else .ok q

/-! ## Inventory ledger: single-bucket operations
(`services/booking-service/app/main.py`)

One inventory bucket, i.e. one row of `sailing_inventory` or
`sailing_category_inventory` with its key projected away. -/

structure Bucket where
  capacity : ℤ
  held : ℤ
  confirmed : ℤ
  deriving DecidableEq, Repr

/-- `available = max(0, capacity - held - confirmed)`, as computed by
`create_hold` and by the inventory read endpoints. -/
def Bucket.available (b : Bucket) : ℤ := max 0 (b.capacity - b.held - b.confirmed)

/-- The hold-allocation step of `create_hold` (main.py lines 350-361):
`SoldOut` (`none`) when nothing is available, else `held += 1`. -/
def Bucket.allocateHold (b : Bucket) : Option Bucket :=
  if b.available ≤ 0 then none else some { b with held := b.held + 1 }

/-- The expiry-release step of `_release_expired_holds` (lines 103-104):
`held = max(0, held - 1)`, guarded by `held > 0`. -/
def Bucket.releaseHold (b : Bucket) : Bucket :=
  if 0 < b.held then { b with held := max 0 (b.held - 1) } else b

/-- The held-to-confirmed move of `confirm_booking` (lines 472-474 and
484-486). -/
def Bucket.commitHold (b : Bucket) : Bucket :=
  let h := max 0 (b.held - 1)
  let c := b.confirmed + 1
  { b with held := h, confirmed := min c (max 0 (b.capacity - h)) }

/-- The capacity upsert of `upsert_inventory` (lines 214-217). -/
def Bucket.upsertCabinCapacity (b : Bucket) (cap : ℤ) : Bucket :=
  let h := min b.held cap
  { capacity := cap, held := h, confirmed := min b.confirmed (cap - h) }

/-- The capacity upsert of `upsert_category_inventory` (lines 278-280). -/
def Bucket.upsertCategoryCapacity (b : Bucket) (cap : ℤ) : Bucket :=
  let h := min b.held cap
  { capacity := cap, held := h, confirmed := min b.confirmed (max 0 (cap - h)) }

/-- The inventory operations that touch a single bucket. -/
inductive LedgerOp where
  | allocateHold
  | releaseHold
  | commitHold
  | upsertCabinCapacity (cap : ℤ)
  | upsertCategoryCapacity (cap : ℤ)
  deriving DecidableEq, Repr

/-- Apply one ledger operation; a failed allocation (`SoldOut`) leaves the
bucket unchanged, as `create_hold` raises before mutating. -/
def applyLedgerOp (b : Bucket) : LedgerOp → Bucket
  | .allocateHold => (b.allocateHold).getD b
  | .releaseHold => b.releaseHold
  | .commitHold => b.commitHold
  | .upsertCabinCapacity cap => b.upsertCabinCapacity cap
  | .upsertCategoryCapacity cap => b.upsertCategoryCapacity cap

def applyLedgerOps (b : Bucket) (ops : List LedgerOp) : Bucket :=
  ops.foldl applyLedgerOp b

/-- The capacity upsert endpoints validate `capacity >= 0`
(`Field(ge=0)` on `InventoryUpsert` / `CategoryInventoryUpsert`). -/
def LedgerOpValid : LedgerOp → Prop
  | .upsertCabinCapacity cap => 0 ≤ cap
  | .upsertCategoryCapacity cap => 0 ≤ cap
  | _ => True

/-- The bucket invariant of the spec. -/
def BucketInv (b : Bucket) : Prop :=
  0 ≤ b.held ∧ 0 ≤ b.confirmed ∧ b.held + b.confirmed ≤ b.capacity

/-! ## Booking-service state
(`services/booking-service/app/main.py` and `app/models.py`) -/

/-- A `sailing_inventory` row. -/
structure InvRow where
  sailing_id : String
  cabin_type : String
  capacity : ℤ
  held : ℤ
  confirmed : ℤ
  deriving DecidableEq, Repr

/-- A `sailing_category_inventory` row. -/
structure CatInvRow where
  sailing_id : String
  category_code : String
  capacity : ℤ
  held : ℤ
  confirmed : ℤ
  deriving DecidableEq, Repr

/-- A `bookings` row (the columns the hold/confirm flow reads or writes;
payload columns such as guests and the stored quote breakdown are omitted,
except for `quote_total`). -/
structure Booking where
  id : String
  status : String
  sailing_id : String
  cabin_type : String
  cabin_category_code : Option String
  hold_expires_at : Option ℤ
  created_at : ℤ
  updated_at : ℤ
  quote_total : ℤ
  deriving DecidableEq, Repr

/-- The tenant database. -/
structure BookingState where
  bookings : List Booking
  inv : List InvRow
  catInv : List CatInvRow
  deriving DecidableEq, Repr

/-- Update the first element satisfying `p` (the row an SQLAlchemy
`query(...).first()` fetched and mutated). -/
def updateFirst (p : α → Bool) (f : α → α) : List α → List α
  | [] => []
  | x :: xs => if p x then f x :: xs else x :: updateFirst p f xs

def invKey (sid ct : String) (r : InvRow) : Bool :=
  r.sailing_id = sid ∧ r.cabin_type = ct

def catInvKey (sid code : String) (r : CatInvRow) : Bool :=
  r.sailing_id = sid ∧ r.category_code = code

def findInv (rows : List InvRow) (sid ct : String) : Option InvRow :=
  rows.find? (invKey sid ct)

def findCatInv (rows : List CatInvRow) (sid code : String) : Option CatInvRow :=
  rows.find? (catInvKey sid code)

/-- `held` of the cabin-type bucket, `0` when the row does not exist. -/
def heldOf (rows : List InvRow) (sid ct : String) : ℤ :=
  ((findInv rows sid ct).map (fun r => r.held)).getD 0

def confirmedOf (rows : List InvRow) (sid ct : String) : ℤ :=
  ((findInv rows sid ct).map (fun r => r.confirmed)).getD 0

def catHeldOf (rows : List CatInvRow) (sid code : String) : ℤ :=
  ((findCatInv rows sid code).map (fun r => r.held)).getD 0

def catConfirmedOf (rows : List CatInvRow) (sid code : String) : ℤ :=
  ((findCatInv rows sid code).map (fun r => r.confirmed)).getD 0

/-- The filter of `_release_expired_holds`: status `held`, a non-`NULL`
`hold_expires_at` in the past. -/
def isExpiredHeld (now : ℤ) (b : Booking) : Bool :=
  decide (b.status = "held")
    && (match b.hold_expires_at with | some t => decide (t < now) | none => false)

/-- The inventory release inside `_release_expired_holds` (lines 97-105): the
first `sailing_inventory` row for `(sailing_id, cabin_type)` — note: always
the cabin-type table, never the category table — gets
`held = max(0, held - 1)` when `held > 0`; missing row is a no-op. -/
def releaseInvRow (rows : List InvRow) (sid ct : String) : List InvRow :=
  updateFirst (invKey sid ct)
    (fun r => if 0 < r.held then { r with held := max 0 (r.held - 1) } else r) rows

/-- `_release_expired_holds`: cancel every expired held booking of the tenant
and release its unit from the cabin-type bucket. -/
def releaseExpiredHolds (now : ℤ) (st : BookingState) : BookingState :=
  let r := st.bookings.foldl
    (fun (acc : List Booking × List InvRow) b =>
      if isExpiredHeld now b then
        (acc.1 ++ [{ b with status := "cancelled", updated_at := now, hold_expires_at := none }],
         releaseInvRow acc.2 b.sailing_id b.cabin_type)
      else (acc.1 ++ [b], acc.2))
    ([], st.inv)
  { bookings := r.1, inv := r.2, catInv := st.catInv }

/-- `_ensure_inventory_row`: find or create with the starter default
`capacity=999, held=0, confirmed=0`. -/
def ensureInv (rows : List InvRow) (sid ct : String) : InvRow × List InvRow :=
  match findInv rows sid ct with
  | some r => (r, rows)
  | none =>
    let r : InvRow := { sailing_id := sid, cabin_type := ct, capacity := 999, held := 0, confirmed := 0 }
    (r, rows ++ [r])

/-- `_ensure_category_inventory_row`. Every caller (`create_hold` via the
already-normalised `booking.cabin_category_code`, and
`upsert_category_inventory` after its own `strip().upper()`) passes a
normalised code, so the function's internal re-normalisation is the identity
and the embedding normalises at the call sites instead. -/
def ensureCatInv (rows : List CatInvRow) (sid code : String) : CatInvRow × List CatInvRow :=
  match findCatInv rows sid code with
  | some r => (r, rows)
  | none =>
    let r : CatInvRow := { sailing_id := sid, category_code := code, capacity := 999, held := 0, confirmed := 0 }
    (r, rows ++ [r])

/-! ## The hold / confirm state machine -/

/-- The request body of `POST /holds` (`HoldRequest`); booking-side rows store
the cabin type as a string. -/
structure HoldPayload where
  sailing_id : String
  cabin_type : String := "inside"
  cabin_category_code : Option String := none
  hold_minutes : ℤ := 15
  deriving DecidableEq, Repr

inductive HoldError where
  | soldOut (detail : String)
  deriving DecidableEq, Repr

/-- `booking.cabin_category_code` as constructed by `create_hold`:
`payload.cabin_category_code.strip().upper() if payload.cabin_category_code
else None`. -/
def holdCcc (p : HoldPayload) : Option String :=
  match p.cabin_category_code with
  | some s => if s = "" then none else some (pyUpper (pyStrip s))
  | none => none

/-- The normalised category code, `""` when absent: the bucket selector of
`create_hold` (`if booking.cabin_category_code:`, where `None` and `""` are
both falsy). -/
def holdCatCode (p : HoldPayload) : String := (holdCcc p).getD ""

/-- The `Booking` row `create_hold` builds before allocating:
state `held`, `hold_expires_at = now + clamp(hold_minutes, 1, 60)`. -/
def holdBooking (now : ℤ) (p : HoldPayload) (quoteTotal : ℤ) (newId : String) : Booking :=
  { id := newId, status := "held", sailing_id := p.sailing_id, cabin_type := p.cabin_type
    cabin_category_code := holdCcc p, hold_expires_at := some (now + max 1 (min p.hold_minutes 60))
    created_at := now, updated_at := now, quote_total := quoteTotal }

/-- The `create_hold` endpoint, from the point where the pricing call has
succeeded (a failed pricing call is a 502 before any state is touched;
`quoteTotal` stands for the successful quote response's total). Returns the
resulting tenant state together with the outcome; on `SoldOut` the only state
change is the expiry sweep (and a possibly freshly created empty row), since
the exception is raised before the increment and the booking insert. -/
def createHold (now : ℤ) (p : HoldPayload) (quoteTotal : ℤ) (newId : String)
    (st : BookingState) : BookingState × Except HoldError Booking :=
  let st1 := releaseExpiredHolds now st
  let booking := holdBooking now p quoteTotal newId
  let code := (holdCcc p).getD ""
  if code ≠ "" then
    let er := ensureCatInv st1.catInv p.sailing_id code
    if max 0 (er.1.capacity - er.1.held - er.1.confirmed) ≤ 0 then
      ({ st1 with catInv := er.2 }, .error (.soldOut "Sold out (category)"))
    else
      ({ st1 with
          catInv := updateFirst (catInvKey p.sailing_id code)
            (fun r => { r with held := r.held + 1 }) er.2
          bookings := st1.bookings ++ [booking] },
       .ok booking)
  else
    let er := ensureInv st1.inv p.sailing_id p.cabin_type
    if max 0 (er.1.capacity - er.1.held - er.1.confirmed) ≤ 0 then
      ({ st1 with inv := er.2 }, .error (.soldOut "Sold out"))
    else
      ({ st1 with
          inv := updateFirst (invKey p.sailing_id p.cabin_type)
            (fun r => { r with held := r.held + 1 }) er.2
          bookings := st1.bookings ++ [booking] },
       .ok booking)

inductive ConfirmError where
  | notFound
  | invalidState (status : String)
  | holdExpired
  deriving DecidableEq, Repr

/-- `s.get(Booking, booking_id)`: primary-key lookup. -/
def findBooking (bs : List Booking) (bid : String) : Option Booking :=
  bs.find? (fun b => b.id = bid)

/-- The held-to-confirmed move of `confirm_booking` on the cabin-type table;
a missing row is skipped (`if inv is not None`). -/
def commitInvRow (rows : List InvRow) (sid ct : String) : List InvRow :=
  updateFirst (invKey sid ct)
    (fun r =>
      let h := max 0 (r.held - 1)
      { r with held := h, confirmed := min (r.confirmed + 1) (max 0 (r.capacity - h)) }) rows

/-- The held-to-confirmed move of `confirm_booking` on the category table. -/
def commitCatInvRow (rows : List CatInvRow) (sid code : String) : List CatInvRow :=
  updateFirst (catInvKey sid code)
    (fun r =>
      let h := max 0 (r.held - 1)
      { r with held := h, confirmed := min (r.confirmed + 1) (max 0 (r.capacity - h)) }) rows

/-- The `confirm_booking` endpoint. Its first action is the
`_release_expired_holds` sweep, which cancels every already-expired held
booking of the tenant before the booking is even fetched. -/
def confirmBooking (now : ℤ) (bid : String) (st : BookingState) :
    BookingState × Except ConfirmError Booking :=
  let st1 := releaseExpiredHolds now st
  match findBooking st1.bookings bid with
  | none => (st1, .error .notFound)
  | some b =>
    if b.status ≠ "held" then (st1, .error (.invalidState b.status))
    else
      let expired := match b.hold_expires_at with | some t => decide (t < now) | none => false
      if expired then
        let cb := { b with status := "cancelled", updated_at := now }
        ({ st1 with bookings := updateFirst (fun x => x.id = bid) (fun _ => cb) st1.bookings },
         .error .holdExpired)
      else
        let cat := pyUpper (pyStrip (b.cabin_category_code.getD ""))
        let nb := { b with status := "confirmed", updated_at := now, hold_expires_at := none }
        if cat ≠ "" then
          ({ bookings := updateFirst (fun x => x.id = bid) (fun _ => nb) st1.bookings
             inv := st1.inv
             catInv := commitCatInvRow st1.catInv b.sailing_id cat },
           .ok nb)
        else
          ({ bookings := updateFirst (fun x => x.id = bid) (fun _ => nb) st1.bookings
             inv := commitInvRow st1.inv b.sailing_id b.cabin_type
             catInv := st1.catInv },
           .ok nb)

/-! ## Concurrent hold allocation as interleaved read / write steps

`create_hold` reads the availability (`available = max(0, capacity - held -
confirmed)`, main.py line 357) and then, as a separate application-level
step, writes `held += 1` (line 360) — there is no row lock or
compare-and-swap between the two. Each concurrent request is modelled as a
process that performs its read step and then its write step, with steps of
different requests interleaving freely. -/

structure AllocProc where
  readAvail : Option ℤ := none
  result : Option Bool := none
  deriving DecidableEq, Repr

inductive RaceEv where
  | read (i : ℕ)
  | write (i : ℕ)

structure RaceState where
  bucket : Bucket
  procs : List AllocProc
  deriving DecidableEq, Repr

/-- One interleaving step: a process reads the shared bucket's availability,
or applies its buffered check-then-increment. -/
def raceStep (s : RaceState) : RaceEv → RaceState
  | .read i =>
    match s.procs[i]? with
    | some p => { s with procs := s.procs.set i { p with readAvail := some s.bucket.available } }
    | none => s
  | .write i =>
    match s.procs[i]? with
    | some p =>
      match p.readAvail with
      | some a =>
        if a ≤ 0 then { s with procs := s.procs.set i { p with result := some false } }
        else { bucket := { s.bucket with held := s.bucket.held + 1 }
               procs := s.procs.set i { p with result := some true } }
      | none => s
    | none => s

def runRace (s : RaceState) (evs : List RaceEv) : RaceState := evs.foldl raceStep s

/-! ## C1 — bucket conservation -/

theorem applyLedgerOp_preserves (b : Bucket) (op : LedgerOp) (hb : BucketInv b)
    (hop : LedgerOpValid op) : BucketInv (applyLedgerOp b op) := by
  obtain ⟨h1, h2, h3⟩ := hb
  cases op with
  | allocateHold =>
    simp only [applyLedgerOp, Bucket.allocateHold, Bucket.available, BucketInv]
    split
    · exact ⟨h1, h2, h3⟩
    · simp only [Option.getD_some]
      omega
  | releaseHold =>
    simp only [applyLedgerOp, Bucket.releaseHold, BucketInv]
    split
    · simp only []
      omega
    · exact ⟨h1, h2, h3⟩
  | commitHold =>
    simp only [applyLedgerOp, Bucket.commitHold, BucketInv]
    omega
  | upsertCabinCapacity cap =>
    simp only [LedgerOpValid] at hop
    simp only [applyLedgerOp, Bucket.upsertCabinCapacity, BucketInv]
    omega
  | upsertCategoryCapacity cap =>
    simp only [LedgerOpValid] at hop
    simp only [applyLedgerOp, Bucket.upsertCategoryCapacity, BucketInv]
    omega

theorem applyLedgerOps_preserves (ops : List LedgerOp) (b : Bucket) (hb : BucketInv b)
    (hops : ∀ op ∈ ops, LedgerOpValid op) : BucketInv (applyLedgerOps b ops) := by
  induction ops generalizing b with
  | nil => exact hb
  | cons op rest ih =>
    have hb1 := applyLedgerOp_preserves b op hb (hops op (List.mem_cons_self op rest))
    exact ih (applyLedgerOp b op) hb1 (fun o ho => hops o (List.mem_cons_of_mem op ho))

/-- C1: a bucket that starts with `held ≥ 0`, `confirmed ≥ 0` and
`held + confirmed ≤ capacity` keeps satisfying all three after every prefix of
any sequence of inventory operations (hold allocation, expiry release,
held-to-confirmed move, capacity upsert with the API-validated
`capacity ≥ 0`). -/
theorem ledger_conservation (b : Bucket) (ops : List LedgerOp) (hb : BucketInv b)
    (hops : ∀ op ∈ ops, LedgerOpValid op) (n : ℕ) :
    BucketInv (applyLedgerOps b (ops.take n)) :=
  applyLedgerOps_preserves (ops.take n) b hb
    (fun o ho => hops o (List.take_subset n ops ho))

/-- Witness for C1 at a concrete bucket and operation sequence. -/
theorem ledger_conservation_witness :
    BucketInv (applyLedgerOps { capacity := 2, held := 0, confirmed := 0 }
      ([LedgerOp.allocateHold, LedgerOp.commitHold, LedgerOp.upsertCabinCapacity 1,
        LedgerOp.releaseHold].take 3)) :=
  ledger_conservation { capacity := 2, held := 0, confirmed := 0 }
    [LedgerOp.allocateHold, LedgerOp.commitHold, LedgerOp.upsertCabinCapacity 1,
     LedgerOp.releaseHold]
    ⟨by norm_num, by norm_num, by norm_num⟩
    (by intro op hop; fin_cases hop <;> simp [LedgerOpValid])
    3

/-! ## C3 — concurrent hold allocation oversells -/

/-- C3: the claim that N concurrent `allocate_hold` calls yield exactly
`min(N, K)` successes fails on the code. `create_hold` reads the availability
and increments `held` as two separate application-level steps with no lock;
with `capacity = 1`, `held = confirmed = 0`, two concurrent calls whose reads
both precede the writes (interleaving read 0, read 1, write 0, write 1) both
succeed, leaving `held = 2 > capacity = 1` — an oversell, where the claim
requires exactly `min(2, 1) = 1` success and one `SoldOut`. -/
theorem allocate_hold_race_oversell :
    (runRace { bucket := { capacity := 1, held := 0, confirmed := 0 }, procs := [{}, {}] }
        [.read 0, .read 1, .write 0, .write 1]).procs.map (fun p => p.result) =
      [some true, some true]
    ∧ (runRace { bucket := { capacity := 1, held := 0, confirmed := 0 }, procs := [{}, {}] }
        [.read 0, .read 1, .write 0, .write 1]).bucket.held = 2
    ∧ ¬ BucketInv (runRace { bucket := { capacity := 1, held := 0, confirmed := 0 }, procs := [{}, {}] }
          [.read 0, .read 1, .write 0, .write 1]).bucket := by
  refine ⟨by decide, by decide, ?_⟩
  unfold BucketInv
  decide

/-! ## C5 — discount non-stacking -/

/-- C5: the discount rate is the maximum of the individually applicable rule
rates — 10% for coupon `WELCOME10`, 5% for coupon `FAMILY5` with at least two
child guests, 15% for loyalty tier GOLD, 7% for SILVER, 0 otherwise — and in
particular `WELCOME10` together with GOLD gives exactly 15%, never 25%. -/
theorem discount_rate_is_max (coupon loyalty : Option String) (cc : ℤ) :
    (discountRate coupon loyalty cc =
      max (max (if pyNormUpper coupon = "WELCOME10" then (10/100 : ℚ) else 0)
               (if pyNormUpper coupon = "FAMILY5" ∧ 2 ≤ cc then (5/100 : ℚ) else 0))
          (max (if pyNormUpper loyalty = "GOLD" then (15/100 : ℚ) else 0)
               (if pyNormUpper loyalty = "SILVER" then (7/100 : ℚ) else 0)))
    ∧ discountRate (some "WELCOME10") (some "GOLD") cc = 15/100 := by
  constructor
  · unfold discountRate
    by_cases hW : pyNormUpper coupon = "WELCOME10" <;>
      by_cases hF : pyNormUpper coupon = "FAMILY5" ∧ 2 ≤ cc <;>
      by_cases hG : pyNormUpper loyalty = "GOLD" <;>
      by_cases hS : pyNormUpper loyalty = "SILVER"
    all_goals try exact absurd (hW ▸ hF.1) (by decide)
    all_goals try exact absurd (hG ▸ hS) (by decide)
    all_goals simp only [hW, hF, hG, hS, if_true, if_false, ite_true, ite_false, if_pos, if_neg,
      not_false_iff]
    all_goals try simp only [(by decide : (("WELCOME10" : String) = "FAMILY5") ↔ False),
      (by decide : (("FAMILY5" : String) = "WELCOME10") ↔ False),
      (by decide : (("GOLD" : String) = "SILVER") ↔ False),
      (by decide : (("SILVER" : String) = "GOLD") ↔ False),
      false_and, if_false, ite_false]
    all_goals try norm_num [max_def]
  · have h1 : pyNormUpper (some "WELCOME10") = "WELCOME10" := by decide
    have h2 : pyNormUpper (some "GOLD") = "GOLD" := by decide
    unfold discountRate
    rw [h1, h2]
    norm_num

/-! ## C4 — occupancy-bracket tie-break -/

theorem foldl_max_acc_le (f : α → ℤ) (xs : List α) (x : α) :
    f x ≤ f (xs.foldl (fun b y => if f b < f y then y else b) x) := by
  induction xs generalizing x with
  | nil => exact le_refl _
  | cons y ys ih =>
    simp only [List.foldl_cons]
    refine le_trans ?_ (ih (if f x < f y then y else x))
    by_cases hxy : f x < f y
    · rw [if_pos hxy]
      exact le_of_lt hxy
    · rw [if_neg hxy]

theorem foldl_max_mem (f : α → ℤ) (xs : List α) (x : α) :
    xs.foldl (fun b y => if f b < f y then y else b) x ∈ x :: xs := by
  induction xs generalizing x with
  | nil => exact List.mem_singleton.mpr rfl
  | cons y ys ih =>
    simp only [List.foldl_cons]
    rcases List.mem_cons.mp (ih (if f x < f y then y else x)) with h | h
    · rw [h]
      by_cases hxy : f x < f y
      · rw [if_pos hxy]
        exact List.mem_cons_of_mem x (List.mem_cons_self y ys)
      · rw [if_neg hxy]
        exact List.mem_cons_self x (y :: ys)
    · exact List.mem_cons_of_mem x (List.mem_cons_of_mem y h)

theorem foldl_max_ge (f : α → ℤ) (xs : List α) (x z : α) (hz : z ∈ x :: xs) :
    f z ≤ f (xs.foldl (fun b y => if f b < f y then y else b) x) := by
  induction xs generalizing x with
  | nil =>
    rcases List.mem_singleton.mp hz with rfl
    exact le_refl _
  | cons y ys ih =>
    simp only [List.foldl_cons]
    rcases List.mem_cons.mp hz with rfl | hz1
    · refine le_trans ?_ (foldl_max_acc_le f ys (if f z < f y then y else z))
      by_cases hxy : f z < f y
      · rw [if_pos hxy]
        exact le_of_lt hxy
      · rw [if_neg hxy]
    · rcases List.mem_cons.mp hz1 with rfl | hz2
      · refine le_trans ?_ (foldl_max_acc_le f ys (if f x < f z then z else x))
        by_cases hxy : f x < f z
        · rw [if_pos hxy]
        · rw [if_neg hxy]
          omega
      · exact ih _ (List.mem_cons_of_mem _ hz2)

theorem foldl_min_acc_le (f : α → ℤ) (xs : List α) (x : α) :
    f (xs.foldl (fun b y => if f y < f b then y else b) x) ≤ f x := by
  induction xs generalizing x with
  | nil => exact le_refl _
  | cons y ys ih =>
    simp only [List.foldl_cons]
    refine le_trans (ih (if f y < f x then y else x)) ?_
    by_cases hxy : f y < f x
    · rw [if_pos hxy]
      exact le_of_lt hxy
    · rw [if_neg hxy]

theorem foldl_min_mem (f : α → ℤ) (xs : List α) (x : α) :
    xs.foldl (fun b y => if f y < f b then y else b) x ∈ x :: xs := by
  induction xs generalizing x with
  | nil => exact List.mem_singleton.mpr rfl
  | cons y ys ih =>
    simp only [List.foldl_cons]
    rcases List.mem_cons.mp (ih (if f y < f x then y else x)) with h | h
    · rw [h]
      by_cases hxy : f y < f x
      · rw [if_pos hxy]
        exact List.mem_cons_of_mem x (List.mem_cons_self y ys)
      · rw [if_neg hxy]
        exact List.mem_cons_self x (y :: ys)
    · exact List.mem_cons_of_mem x (List.mem_cons_of_mem y h)

theorem foldl_min_le (f : α → ℤ) (xs : List α) (x z : α) (hz : z ∈ x :: xs) :
    f (xs.foldl (fun b y => if f y < f b then y else b) x) ≤ f z := by
  induction xs generalizing x with
  | nil =>
    rcases List.mem_singleton.mp hz with rfl
    exact le_refl _
  | cons y ys ih =>
    simp only [List.foldl_cons]
    rcases List.mem_cons.mp hz with rfl | hz1
    · refine le_trans (foldl_min_acc_le f ys (if f y < f z then y else z)) ?_
      by_cases hxy : f y < f z
      · rw [if_pos hxy]
        exact le_of_lt hxy
      · rw [if_neg hxy]
    · rcases List.mem_cons.mp hz1 with rfl | hz2
      · refine le_trans (foldl_min_acc_le f ys (if f z < f x then z else x)) ?_
        by_cases hxy : f z < f x
        · rw [if_pos hxy]
        · rw [if_neg hxy]
          omega
      · exact ih _ (List.mem_cons_of_mem _ hz2)

theorem pickRule_spec (rules : List CategoryPriceRule) (gc : ℕ) (best : CategoryPriceRule)
    (h : pickRule rules gc = some best) :
    best ∈ rules
    ∧ ((∃ r ∈ rules, r.min_guests ≤ (gc : ℤ)) →
        best.min_guests ≤ (gc : ℤ)
        ∧ ∀ r ∈ rules, r.min_guests ≤ (gc : ℤ) → r.min_guests ≤ best.min_guests)
    ∧ ((∀ r ∈ rules, ¬ r.min_guests ≤ (gc : ℤ)) →
        ∀ r ∈ rules, best.min_guests ≤ r.min_guests) := by
  unfold pickRule at h
  cases hle : rules.filter (fun r => decide (r.min_guests ≤ (gc : ℤ))) with
  | nil =>
    rw [hle] at h
    cases rules with
    | nil => simp [argminFirstBy] at h
    | cons r0 rs =>
      simp only [argminFirstBy, Option.some.injEq] at h
      subst h
      refine ⟨foldl_min_mem _ rs r0, ?_, ?_⟩
      · rintro ⟨r, hr, hrle⟩
        exfalso
        have hrf : r ∈ (r0 :: rs).filter (fun r => decide (r.min_guests ≤ (gc : ℤ))) :=
          List.mem_filter.mpr ⟨hr, by simpa using hrle⟩
        rw [hle] at hrf
        exact absurd hrf (List.not_mem_nil r)
      · intro _ r hr
        exact foldl_min_le _ rs r0 r hr
  | cons a as =>
    rw [hle] at h
    simp only [argmaxFirstBy, Option.some.injEq] at h
    subst h
    have hmem : as.foldl (fun b y => if b.min_guests < y.min_guests then y else b) a ∈ a :: as :=
      foldl_max_mem (fun r => r.min_guests) as a
    have hmemf := hle ▸ hmem
    obtain ⟨hmr, hpred⟩ := List.mem_filter.mp hmemf
    refine ⟨hmr, ?_, ?_⟩
    · intro _
      refine ⟨by simpa using hpred, ?_⟩
      intro r hr hrle
      have hrf : r ∈ rules.filter (fun r => decide (r.min_guests ≤ (gc : ℤ))) :=
        List.mem_filter.mpr ⟨hr, by simpa using hrle⟩
      rw [hle] at hrf
      exact foldl_max_ge (fun r => r.min_guests) as a r hrf
    · intro hall
      exact absurd (by simpa using hpred) (hall _ hmr)

/-- C4: when category pricing applies and candidate rules remain after the
currency, price-type and date filters, the selected rule has the largest
`min_guests ≤ guest_count` when such a rule exists, otherwise the smallest
`min_guests`; and the emitted `fare.category` line bills
`price_per_person × max(guest_count, selected min_guests)`. -/
theorem category_bracket_selection (req : QuoteRequest) (code : String)
    (rules : List CategoryPriceRule) (best : CategoryPriceRule)
    (hmg : ∀ r ∈ rules, 1 ≤ r.min_guests)
    (hpick : pickRule rules req.guests.length = some best)
    (hpp : 0 ≤ best.price_per_person) :
    best ∈ rules
    ∧ ((∃ r ∈ rules, r.min_guests ≤ (req.guests.length : ℤ)) →
        best.min_guests ≤ (req.guests.length : ℤ)
        ∧ ∀ r ∈ rules, r.min_guests ≤ (req.guests.length : ℤ) → r.min_guests ≤ best.min_guests)
    ∧ ((∀ r ∈ rules, ¬ r.min_guests ≤ (req.guests.length : ℤ)) →
        ∀ r ∈ rules, best.min_guests ≤ r.min_guests)
    ∧ ∃ q, categoryBuild req code best = .ok q
        ∧ q.lines.head?.map (fun l => l.amount) =
            some (best.price_per_person * max (req.guests.length : ℤ) best.min_guests) := by
  obtain ⟨hm, hbr, hsm⟩ := pickRule_spec rules req.guests.length best hpick
  refine ⟨hm, hbr, hsm, ?_⟩
  have hb1 : 1 ≤ best.min_guests := hmg best hm
  have hmax : max 1 best.min_guests = best.min_guests := max_eq_right hb1
  have hnot : ¬ best.price_per_person < 0 := not_lt.mpr hpp
  unfold categoryBuild
  rw [if_neg hnot]
  refine ⟨_, rfl, ?_⟩
  simp only [finishQuote, List.singleton_append, List.cons_append, List.head?_cons,
    Option.map_some']
  rw [hmax]

/-- The rules of the first concrete instance of C4: `min_guests` 1, 2, 4. -/
def rulesC4 : List CategoryPriceRule :=
  [{ category_code := "CO3", currency := "USD", min_guests := 1, price_per_person := 10000 },
   { category_code := "CO3", currency := "USD", min_guests := 2, price_per_person := 10000 },
   { category_code := "CO3", currency := "USD", min_guests := 4, price_per_person := 10000 }]

def bestC4 : CategoryPriceRule :=
  { category_code := "CO3", currency := "USD", min_guests := 2, price_per_person := 10000 }

def reqC4 : QuoteRequest :=
  { sailing_date := none, cabin_type := .inside
    guests := [{ paxtype := .adult }, { paxtype := .adult }, { paxtype := .adult }]
    coupon_code := none, loyalty_tier := none, cabin_category_code := some "CO3"
    currency := "USD", price_type := "regular" }

/-- Witness for C4: rules with `min_guests` {1, 2, 4} and 3 guests select the
`min_guests = 2` bracket. -/
theorem category_bracket_selection_witness :
    bestC4 ∈ rulesC4
    ∧ ((∃ r ∈ rulesC4, r.min_guests ≤ (reqC4.guests.length : ℤ)) →
        bestC4.min_guests ≤ (reqC4.guests.length : ℤ)
        ∧ ∀ r ∈ rulesC4, r.min_guests ≤ (reqC4.guests.length : ℤ) →
            r.min_guests ≤ bestC4.min_guests)
    ∧ ((∀ r ∈ rulesC4, ¬ r.min_guests ≤ (reqC4.guests.length : ℤ)) →
        ∀ r ∈ rulesC4, bestC4.min_guests ≤ r.min_guests)
    ∧ ∃ q, categoryBuild reqC4 "CO3" bestC4 = .ok q
        ∧ q.lines.head?.map (fun l => l.amount) =
            some (bestC4.price_per_person * max (reqC4.guests.length : ℤ) bestC4.min_guests) :=
  category_bracket_selection reqC4 "CO3" rulesC4 bestC4 (by decide) (by decide) (by decide)

/-! ## Booking-state lemmas -/

theorem find?_updateFirst_of_preserve (p : α → Bool) (f : α → α) (l : List α)
    (hf : ∀ a, p a = true → p (f a) = true) :
    (updateFirst p f l).find? p = (l.find? p).map f := by
  induction l with
  | nil => rfl
  | cons x xs ih =>
    by_cases hx : p x
    · rw [updateFirst, if_pos hx, List.find?_cons_of_pos _ (hf x hx),
        List.find?_cons_of_pos _ hx, Option.map_some']
    · rw [updateFirst, if_neg hx, List.find?_cons_of_neg _ (by simpa using hx),
        List.find?_cons_of_neg _ (by simpa using hx), ih]

/-- The expiry sweep is the identity when the tenant has no expired held
booking. -/
theorem releaseExpiredHolds_id (now : ℤ) (st : BookingState)
    (h : ∀ b ∈ st.bookings, isExpiredHeld now b = false) :
    releaseExpiredHolds now st = st := by
  unfold releaseExpiredHolds
  have key : ∀ (l : List Booking) (acc : List Booking) (rows : List InvRow),
      (∀ b ∈ l, isExpiredHeld now b = false) →
      l.foldl
        (fun (acc : List Booking × List InvRow) b =>
          if isExpiredHeld now b then
            (acc.1 ++ [{ b with status := "cancelled", updated_at := now, hold_expires_at := none }],
             releaseInvRow acc.2 b.sailing_id b.cabin_type)
          else (acc.1 ++ [b], acc.2))
        (acc, rows) = (acc ++ l, rows) := by
    intro l
    induction l with
    | nil => intro acc rows _; simp
    | cons b bs ih =>
      intro acc rows hl
      have hb : isExpiredHeld now b = false := hl b (List.mem_cons_self b bs)
      simp only [List.foldl_cons, hb, if_false, Bool.false_eq_true]
      rw [ih (acc ++ [b]) rows (fun x hx => hl x (List.mem_cons_of_mem b hx))]
      simp
  rw [key st.bookings [] st.inv h]
  simp

theorem findInv_ensureInv (rows : List InvRow) (sid ct : String) :
    findInv (ensureInv rows sid ct).2 sid ct = some (ensureInv rows sid ct).1 := by
  unfold ensureInv
  cases h : findInv rows sid ct with
  | some r => simpa [h] using h
  | none =>
    simp only [h]
    unfold findInv at h ⊢
    rw [List.find?_append, h, Option.none_or]
    simp [invKey]

theorem heldOf_ensureInv (rows : List InvRow) (sid ct : String) :
    heldOf (ensureInv rows sid ct).2 sid ct = heldOf rows sid ct := by
  unfold heldOf
  rw [findInv_ensureInv]
  unfold ensureInv
  cases h : findInv rows sid ct with
  | some r => simp [h]
  | none => simp [h]

theorem confirmedOf_ensureInv (rows : List InvRow) (sid ct : String) :
    confirmedOf (ensureInv rows sid ct).2 sid ct = confirmedOf rows sid ct := by
  unfold confirmedOf
  rw [findInv_ensureInv]
  unfold ensureInv
  cases h : findInv rows sid ct with
  | some r => simp [h]
  | none => simp [h]

theorem findCatInv_ensureCatInv (rows : List CatInvRow) (sid code : String) :
    findCatInv (ensureCatInv rows sid code).2 sid code = some (ensureCatInv rows sid code).1 := by
  unfold ensureCatInv
  cases h : findCatInv rows sid code with
  | some r => simpa [h] using h
  | none =>
    simp only [h]
    unfold findCatInv at h ⊢
    rw [List.find?_append, h, Option.none_or]
    simp [catInvKey]

theorem catHeldOf_ensureCatInv (rows : List CatInvRow) (sid code : String) :
    catHeldOf (ensureCatInv rows sid code).2 sid code = catHeldOf rows sid code := by
  unfold catHeldOf
  rw [findCatInv_ensureCatInv]
  unfold ensureCatInv
  cases h : findCatInv rows sid code with
  | some r => simp [h]
  | none => simp [h]

theorem catConfirmedOf_ensureCatInv (rows : List CatInvRow) (sid code : String) :
    catConfirmedOf (ensureCatInv rows sid code).2 sid code = catConfirmedOf rows sid code := by
  unfold catConfirmedOf
  rw [findCatInv_ensureCatInv]
  unfold ensureCatInv
  cases h : findCatInv rows sid code with
  | some r => simp [h]
  | none => simp [h]

theorem heldOf_incHeld (rows : List InvRow) (sid ct : String) :
    heldOf (updateFirst (invKey sid ct) (fun r => { r with held := r.held + 1 }) rows) sid ct =
      (if (findInv rows sid ct).isSome then heldOf rows sid ct + 1 else heldOf rows sid ct) := by
  unfold heldOf findInv
  rw [find?_updateFirst_of_preserve _ _ _ (by intro a ha; simpa [invKey] using ha)]
  cases h : rows.find? (invKey sid ct) with
  | some r => simp [h]
  | none => simp [h]

theorem confirmedOf_incHeld (rows : List InvRow) (sid ct : String) :
    confirmedOf (updateFirst (invKey sid ct) (fun r => { r with held := r.held + 1 }) rows)
        sid ct = confirmedOf rows sid ct := by
  unfold confirmedOf findInv
  rw [find?_updateFirst_of_preserve _ _ _ (by intro a ha; simpa [invKey] using ha)]
  cases h : rows.find? (invKey sid ct) with
  | some r => simp [h]
  | none => simp [h]

theorem catHeldOf_incHeld (rows : List CatInvRow) (sid code : String) :
    catHeldOf (updateFirst (catInvKey sid code) (fun r => { r with held := r.held + 1 }) rows)
        sid code =
      (if (findCatInv rows sid code).isSome then catHeldOf rows sid code + 1
       else catHeldOf rows sid code) := by
  unfold catHeldOf findCatInv
  rw [find?_updateFirst_of_preserve _ _ _ (by intro a ha; simpa [catInvKey] using ha)]
  cases h : rows.find? (catInvKey sid code) with
  | some r => simp [h]
  | none => simp [h]

theorem catConfirmedOf_incHeld (rows : List CatInvRow) (sid code : String) :
    catConfirmedOf
        (updateFirst (catInvKey sid code) (fun r => { r with held := r.held + 1 }) rows)
        sid code = catConfirmedOf rows sid code := by
  unfold catConfirmedOf findCatInv
  rw [find?_updateFirst_of_preserve _ _ _ (by intro a ha; simpa [catInvKey] using ha)]
  cases h : rows.find? (catInvKey sid code) with
  | some r => simp [h]
  | none => simp [h]

theorem heldOf_releaseInvRow (rows : List InvRow) (sid ct : String) :
    heldOf (releaseInvRow rows sid ct) sid ct =
      (if 0 < heldOf rows sid ct then heldOf rows sid ct - 1 else heldOf rows sid ct) := by
  unfold releaseInvRow heldOf findInv
  rw [find?_updateFirst_of_preserve _ _ _
    (by intro a ha; by_cases h0 : 0 < a.held <;> simpa [invKey, h0] using ha)]
  cases h : rows.find? (invKey sid ct) with
  | some r =>
    simp only [h, Option.map_some', Option.getD_some]
    by_cases h0 : 0 < r.held
    · rw [if_pos h0, if_pos h0]
      simp only []
      omega
    · rw [if_neg h0, if_neg h0]
  | none => simp [h]

theorem confirmedOf_releaseInvRow (rows : List InvRow) (sid ct : String) :
    confirmedOf (releaseInvRow rows sid ct) sid ct = confirmedOf rows sid ct := by
  unfold releaseInvRow confirmedOf findInv
  rw [find?_updateFirst_of_preserve _ _ _
    (by intro a ha; by_cases h0 : 0 < a.held <;> simpa [invKey, h0] using ha)]
  cases h : rows.find? (invKey sid ct) with
  | some r =>
    simp only [h, Option.map_some', Option.getD_some]
    by_cases h0 : 0 < r.held
    · rw [if_pos h0]
    · rw [if_neg h0]
  | none => simp [h]

/-! ## C7 — CreateHold contract -/

/-- The counters of the bucket `create_hold` allocates from: the category
bucket when a category code is present, else the cabin-type bucket. -/
def targetHeld (p : HoldPayload) (st : BookingState) : ℤ :=
  if holdCatCode p ≠ "" then catHeldOf st.catInv p.sailing_id (holdCatCode p)
  else heldOf st.inv p.sailing_id p.cabin_type

def targetConfirmed (p : HoldPayload) (st : BookingState) : ℤ :=
  if holdCatCode p ≠ "" then catConfirmedOf st.catInv p.sailing_id (holdCatCode p)
  else confirmedOf st.inv p.sailing_id p.cabin_type

theorem createHold_cabin_sold (now : ℤ) (p : HoldPayload) (qt : ℤ) (newId : String)
    (st : BookingState) (hcat : (holdCcc p).getD "" = "")
    (hsold : max 0 ((ensureInv (releaseExpiredHolds now st).inv p.sailing_id p.cabin_type).1.capacity
      - (ensureInv (releaseExpiredHolds now st).inv p.sailing_id p.cabin_type).1.held
      - (ensureInv (releaseExpiredHolds now st).inv p.sailing_id p.cabin_type).1.confirmed) ≤ 0) :
    createHold now p qt newId st =
      ({ releaseExpiredHolds now st with
          inv := (ensureInv (releaseExpiredHolds now st).inv p.sailing_id p.cabin_type).2 },
       .error (.soldOut "Sold out")) := by
  simp only [createHold]
  rw [if_neg (by simp [hcat]), if_pos hsold]

theorem createHold_cabin_ok (now : ℤ) (p : HoldPayload) (qt : ℤ) (newId : String)
    (st : BookingState) (hcat : (holdCcc p).getD "" = "")
    (havail : ¬ max 0 ((ensureInv (releaseExpiredHolds now st).inv p.sailing_id p.cabin_type).1.capacity
      - (ensureInv (releaseExpiredHolds now st).inv p.sailing_id p.cabin_type).1.held
      - (ensureInv (releaseExpiredHolds now st).inv p.sailing_id p.cabin_type).1.confirmed) ≤ 0) :
    createHold now p qt newId st =
      ({ releaseExpiredHolds now st with
          inv := updateFirst (invKey p.sailing_id p.cabin_type)
            (fun r => { r with held := r.held + 1 })
            (ensureInv (releaseExpiredHolds now st).inv p.sailing_id p.cabin_type).2
          bookings := (releaseExpiredHolds now st).bookings ++ [holdBooking now p qt newId] },
       .ok (holdBooking now p qt newId)) := by
  simp only [createHold]
  rw [if_neg (by simp [hcat]), if_neg havail]

theorem createHold_cat_sold (now : ℤ) (p : HoldPayload) (qt : ℤ) (newId : String)
    (st : BookingState) (hcat : (holdCcc p).getD "" ≠ "")
    (hsold : max 0 ((ensureCatInv (releaseExpiredHolds now st).catInv p.sailing_id
        ((holdCcc p).getD "")).1.capacity
      - (ensureCatInv (releaseExpiredHolds now st).catInv p.sailing_id
          ((holdCcc p).getD "")).1.held
      - (ensureCatInv (releaseExpiredHolds now st).catInv p.sailing_id
          ((holdCcc p).getD "")).1.confirmed) ≤ 0) :
    createHold now p qt newId st =
      ({ releaseExpiredHolds now st with
          catInv := (ensureCatInv (releaseExpiredHolds now st).catInv p.sailing_id
            ((holdCcc p).getD "")).2 },
       .error (.soldOut "Sold out (category)")) := by
  simp only [createHold]
  rw [if_pos hcat, if_pos hsold]

theorem createHold_cat_ok (now : ℤ) (p : HoldPayload) (qt : ℤ) (newId : String)
    (st : BookingState) (hcat : (holdCcc p).getD "" ≠ "")
    (havail : ¬ max 0 ((ensureCatInv (releaseExpiredHolds now st).catInv p.sailing_id
        ((holdCcc p).getD "")).1.capacity
      - (ensureCatInv (releaseExpiredHolds now st).catInv p.sailing_id
          ((holdCcc p).getD "")).1.held
      - (ensureCatInv (releaseExpiredHolds now st).catInv p.sailing_id
          ((holdCcc p).getD "")).1.confirmed) ≤ 0) :
    createHold now p qt newId st =
      ({ releaseExpiredHolds now st with
          catInv := updateFirst (catInvKey p.sailing_id ((holdCcc p).getD ""))
            (fun r => { r with held := r.held + 1 })
            (ensureCatInv (releaseExpiredHolds now st).catInv p.sailing_id
              ((holdCcc p).getD "")).2
          bookings := (releaseExpiredHolds now st).bookings ++ [holdBooking now p qt newId] },
       .ok (holdBooking now p qt newId)) := by
  simp only [createHold]
  rw [if_pos hcat, if_neg havail]

/-- C7: when the tenant has no expired holds pending (so the lazy sweep is a
no-op), `create_hold` either fails `SoldOut` — persisting no booking and
leaving the target bucket's `held`/`confirmed` unchanged — or persists exactly
one booking in state `held` with
`hold_expires_at = now + clamp(hold_minutes, 1, 60)` and increments the target
bucket's `held` by exactly 1 in the same step, leaving `confirmed` unchanged. -/
theorem create_hold_contract (now : ℤ) (p : HoldPayload) (qt : ℤ) (newId : String)
    (st : BookingState)
    (hne : ∀ b ∈ st.bookings, isExpiredHeld now b = false) :
    (∀ b, (createHold now p qt newId st).2 = .ok b →
        b.status = "held"
        ∧ b.hold_expires_at = some (now + max 1 (min p.hold_minutes 60))
        ∧ (createHold now p qt newId st).1.bookings = st.bookings ++ [b]
        ∧ targetHeld p (createHold now p qt newId st).1 = targetHeld p st + 1
        ∧ targetConfirmed p (createHold now p qt newId st).1 = targetConfirmed p st)
    ∧ (∀ e, (createHold now p qt newId st).2 = .error e →
        (createHold now p qt newId st).1.bookings = st.bookings
        ∧ targetHeld p (createHold now p qt newId st).1 = targetHeld p st
        ∧ targetConfirmed p (createHold now p qt newId st).1 = targetConfirmed p st) := by
  have hsw := releaseExpiredHolds_id now st hne
  by_cases hcat : (holdCcc p).getD "" = ""
  · by_cases hsold : max 0
        ((ensureInv (releaseExpiredHolds now st).inv p.sailing_id p.cabin_type).1.capacity
          - (ensureInv (releaseExpiredHolds now st).inv p.sailing_id p.cabin_type).1.held
          - (ensureInv (releaseExpiredHolds now st).inv p.sailing_id p.cabin_type).1.confirmed)
        ≤ 0
    · rw [createHold_cabin_sold now p qt newId st hcat hsold]
      constructor
      · intro b hb
        exact absurd hb (by simp)
      · intro e _
        refine ⟨by simp [hsw], ?_, ?_⟩
        · simp [targetHeld, holdCatCode, hcat, hsw, heldOf_ensureInv]
        · simp [targetConfirmed, holdCatCode, hcat, hsw, confirmedOf_ensureInv]
    · rw [createHold_cabin_ok now p qt newId st hcat hsold]
      constructor
      · intro b hb
        simp only [Except.ok.injEq] at hb
        subst hb
        refine ⟨rfl, rfl, by simp [hsw], ?_, ?_⟩
        · simp [targetHeld, holdCatCode, hcat, hsw, heldOf_incHeld, findInv_ensureInv,
            heldOf_ensureInv]
        · simp [targetConfirmed, holdCatCode, hcat, hsw, confirmedOf_incHeld,
            confirmedOf_ensureInv]
      · intro e he
        exact absurd he (by simp)
  · by_cases hsold : max 0
        ((ensureCatInv (releaseExpiredHolds now st).catInv p.sailing_id
            ((holdCcc p).getD "")).1.capacity
          - (ensureCatInv (releaseExpiredHolds now st).catInv p.sailing_id
              ((holdCcc p).getD "")).1.held
          - (ensureCatInv (releaseExpiredHolds now st).catInv p.sailing_id
              ((holdCcc p).getD "")).1.confirmed) ≤ 0
    · rw [createHold_cat_sold now p qt newId st hcat hsold]
      constructor
      · intro b hb
        exact absurd hb (by simp)
      · intro e _
        refine ⟨by simp [hsw], ?_, ?_⟩
        · simp [targetHeld, holdCatCode, hcat, hsw, catHeldOf_ensureCatInv]
        · simp [targetConfirmed, holdCatCode, hcat, hsw, catConfirmedOf_ensureCatInv]
    · rw [createHold_cat_ok now p qt newId st hcat hsold]
      constructor
      · intro b hb
        simp only [Except.ok.injEq] at hb
        subst hb
        refine ⟨rfl, rfl, by simp [hsw], ?_, ?_⟩
        · simp [targetHeld, holdCatCode, hcat, hsw, catHeldOf_incHeld, findCatInv_ensureCatInv,
            catHeldOf_ensureCatInv]
        · simp [targetConfirmed, holdCatCode, hcat, hsw, catConfirmedOf_incHeld,
            catConfirmedOf_ensureCatInv]
      · intro e he
        exact absurd he (by simp)

def p7 : HoldPayload :=
  { sailing_id := "S", cabin_type := "inside", cabin_category_code := none, hold_minutes := 15 }

def st7 : BookingState :=
  { bookings := []
    inv := [{ sailing_id := "S", cabin_type := "inside", capacity := 5, held := 1, confirmed := 0 }]
    catInv := [] }

/-- Witness for C7 at a concrete state with no expired holds. -/
theorem create_hold_contract_witness :
    (∀ b, (createHold 100 p7 108000 "b1" st7).2 = .ok b →
        b.status = "held"
        ∧ b.hold_expires_at = some (100 + max 1 (min p7.hold_minutes 60))
        ∧ (createHold 100 p7 108000 "b1" st7).1.bookings = st7.bookings ++ [b]
        ∧ targetHeld p7 (createHold 100 p7 108000 "b1" st7).1 = targetHeld p7 st7 + 1
        ∧ targetConfirmed p7 (createHold 100 p7 108000 "b1" st7).1 = targetConfirmed p7 st7)
    ∧ (∀ e, (createHold 100 p7 108000 "b1" st7).2 = .error e →
        (createHold 100 p7 108000 "b1" st7).1.bookings = st7.bookings
        ∧ targetHeld p7 (createHold 100 p7 108000 "b1" st7).1 = targetHeld p7 st7
        ∧ targetConfirmed p7 (createHold 100 p7 108000 "b1" st7).1 = targetConfirmed p7 st7) :=
  create_hold_contract 100 p7 108000 "b1" st7 (by decide)

/-! ## C10 — lazy inventory row creation with default capacity 999 -/

/-- C10: an inventory operation that first references a missing
`(sailing_id, cabin_type)` or `(sailing_id, category_code)` row creates it
with `capacity = 999, held = 0, confirmed = 0`; consequently the first
CreateHold against a fresh bucket succeeds rather than returning SoldOut. -/
theorem lazy_default_inventory (rows : List InvRow) (crows : List CatInvRow)
    (sid ct cc : String) (now qt : ℤ) (newId : String) (st : BookingState) (p : HoldPayload) :
    (findInv rows sid ct = none →
      ensureInv rows sid ct =
        ({ sailing_id := sid, cabin_type := ct, capacity := 999, held := 0, confirmed := 0 },
         rows ++ [{ sailing_id := sid, cabin_type := ct, capacity := 999, held := 0,
                    confirmed := 0 }]))
    ∧ (findCatInv crows sid cc = none →
      ensureCatInv crows sid cc =
        ({ sailing_id := sid, category_code := cc, capacity := 999, held := 0, confirmed := 0 },
         crows ++ [{ sailing_id := sid, category_code := cc, capacity := 999, held := 0,
                     confirmed := 0 }]))
    ∧ ((∀ b ∈ st.bookings, isExpiredHeld now b = false) →
       (holdCcc p).getD "" = "" →
       findInv st.inv p.sailing_id p.cabin_type = none →
       (createHold now p qt newId st).2 = .ok (holdBooking now p qt newId))
    ∧ ((∀ b ∈ st.bookings, isExpiredHeld now b = false) →
       (holdCcc p).getD "" ≠ "" →
       findCatInv st.catInv p.sailing_id ((holdCcc p).getD "") = none →
       (createHold now p qt newId st).2 = .ok (holdBooking now p qt newId)) := by
  refine ⟨?_, ?_, ?_, ?_⟩
  · intro h
    unfold ensureInv
    rw [h]
  · intro h
    unfold ensureCatInv
    rw [h]
  · intro hne hc hf
    have hsw := releaseExpiredHolds_id now st hne
    have h1 : (ensureInv (releaseExpiredHolds now st).inv p.sailing_id p.cabin_type).1 =
        { sailing_id := p.sailing_id, cabin_type := p.cabin_type, capacity := 999, held := 0,
          confirmed := 0 } := by
      rw [hsw]
      unfold ensureInv
      rw [hf]
    have havail : ¬ max 0
        ((ensureInv (releaseExpiredHolds now st).inv p.sailing_id p.cabin_type).1.capacity
          - (ensureInv (releaseExpiredHolds now st).inv p.sailing_id p.cabin_type).1.held
          - (ensureInv (releaseExpiredHolds now st).inv p.sailing_id p.cabin_type).1.confirmed)
        ≤ 0 := by
      rw [h1]
      simp only []
      decide
    rw [createHold_cabin_ok now p qt newId st hc havail]
  · intro hne hc hf
    have hsw := releaseExpiredHolds_id now st hne
    have h1 : (ensureCatInv (releaseExpiredHolds now st).catInv p.sailing_id
        ((holdCcc p).getD "")).1 =
        { sailing_id := p.sailing_id, category_code := (holdCcc p).getD "", capacity := 999,
          held := 0, confirmed := 0 } := by
      rw [hsw]
      unfold ensureCatInv
      rw [hf]
    have havail : ¬ max 0
        ((ensureCatInv (releaseExpiredHolds now st).catInv p.sailing_id
            ((holdCcc p).getD "")).1.capacity
          - (ensureCatInv (releaseExpiredHolds now st).catInv p.sailing_id
              ((holdCcc p).getD "")).1.held
          - (ensureCatInv (releaseExpiredHolds now st).catInv p.sailing_id
              ((holdCcc p).getD "")).1.confirmed) ≤ 0 := by
      rw [h1]
      simp only []
      decide
    rw [createHold_cat_ok now p qt newId st hc havail]

def p10 : HoldPayload :=
  { sailing_id := "S2", cabin_type := "balcony", cabin_category_code := none, hold_minutes := 5 }

def st10 : BookingState := { bookings := [], inv := [], catInv := [] }

/-- Witness for C10: a fresh bucket, never referenced before. -/
theorem lazy_default_inventory_witness :
    (findInv [] "S2" "balcony" = none →
      ensureInv [] "S2" "balcony" =
        ({ sailing_id := "S2", cabin_type := "balcony", capacity := 999, held := 0,
           confirmed := 0 },
         [] ++ [{ sailing_id := "S2", cabin_type := "balcony", capacity := 999, held := 0,
                  confirmed := 0 }]))
    ∧ (findCatInv [] "S2" "CO3" = none →
      ensureCatInv [] "S2" "CO3" =
        ({ sailing_id := "S2", category_code := "CO3", capacity := 999, held := 0,
           confirmed := 0 },
         [] ++ [{ sailing_id := "S2", category_code := "CO3", capacity := 999, held := 0,
                  confirmed := 0 }]))
    ∧ ((∀ b ∈ st10.bookings, isExpiredHeld 100 b = false) →
       (holdCcc p10).getD "" = "" →
       findInv st10.inv p10.sailing_id p10.cabin_type = none →
       (createHold 100 p10 50000 "b2" st10).2 = .ok (holdBooking 100 p10 50000 "b2"))
    ∧ ((∀ b ∈ st10.bookings, isExpiredHeld 100 b = false) →
       (holdCcc p10).getD "" ≠ "" →
       findCatInv st10.catInv p10.sailing_id ((holdCcc p10).getD "") = none →
       (createHold 100 p10 50000 "b2" st10).2 = .ok (holdBooking 100 p10 50000 "b2")) :=
  lazy_default_inventory [] [] "S2" "balcony" "CO3" 100 50000 "b2" st10 p10

/-! ## C8 — Confirm on an expired hold -/

theorem releaseExpiredHolds_single (now : ℤ) (b : Booking) (inv : List InvRow)
    (catInv : List CatInvRow) (hexp : isExpiredHeld now b = true) :
    releaseExpiredHolds now { bookings := [b], inv := inv, catInv := catInv } =
      { bookings := [{ b with status := "cancelled", updated_at := now, hold_expires_at := none }]
        inv := releaseInvRow inv b.sailing_id b.cabin_type
        catInv := catInv } := by
  unfold releaseExpiredHolds
  simp [hexp]

/-- C8 (amended): Confirm on a held booking whose hold has expired fails with
a 409 conflict, but the error is the invalid-state one (`"Booking is not
holdable (status=cancelled)"`), not `"Hold expired"`, because the expiry sweep
at the top of `confirm_booking` has already cancelled the booking; the
booking's status does become `cancelled`; and the sweep decrements the held
counter of the cabin-type bucket `(sailing_id, cabin_type)` — even when the
hold was allocated from a category bucket, whose counters are left
untouched. -/
theorem confirm_expired_hold (now t : ℤ) (b : Booking) (inv : List InvRow)
    (catInv : List CatInvRow)
    (hstatus : b.status = "held") (hexp : b.hold_expires_at = some t) (ht : t < now) :
    (confirmBooking now b.id { bookings := [b], inv := inv, catInv := catInv }).2 =
        .error (.invalidState "cancelled")
    ∧ (confirmBooking now b.id { bookings := [b], inv := inv, catInv := catInv }).1.bookings =
        [{ b with status := "cancelled", updated_at := now, hold_expires_at := none }]
    ∧ (confirmBooking now b.id { bookings := [b], inv := inv, catInv := catInv }).1.catInv =
        catInv
    ∧ heldOf (confirmBooking now b.id { bookings := [b], inv := inv, catInv := catInv }).1.inv
          b.sailing_id b.cabin_type =
        (if 0 < heldOf inv b.sailing_id b.cabin_type then heldOf inv b.sailing_id b.cabin_type - 1
         else heldOf inv b.sailing_id b.cabin_type)
    ∧ confirmedOf
          (confirmBooking now b.id { bookings := [b], inv := inv, catInv := catInv }).1.inv
          b.sailing_id b.cabin_type =
        confirmedOf inv b.sailing_id b.cabin_type := by
  have hisexp : isExpiredHeld now b = true := by
    simp [isExpiredHeld, hstatus, hexp, ht]
  have hsweep := releaseExpiredHolds_single now b inv catInv hisexp
  have heval : confirmBooking now b.id { bookings := [b], inv := inv, catInv := catInv } =
      ({ bookings := [{ b with status := "cancelled", updated_at := now, hold_expires_at := none }]
         inv := releaseInvRow inv b.sailing_id b.cabin_type
         catInv := catInv },
       .error (.invalidState "cancelled")) := by
    unfold confirmBooking
    rw [hsweep]
    simp [findBooking]
  rw [heval]
  exact ⟨rfl, rfl, rfl, heldOf_releaseInvRow inv b.sailing_id b.cabin_type,
    confirmedOf_releaseInvRow inv b.sailing_id b.cabin_type⟩

/-- A held booking allocated from the category bucket `CO3`, already expired
at time 10. -/
def b8 : Booking :=
  { id := "b8", status := "held", sailing_id := "S", cabin_type := "inside"
    cabin_category_code := some "CO3", hold_expires_at := some 5, created_at := 0
    updated_at := 0, quote_total := 10000 }

def st8 : BookingState :=
  { bookings := [b8], inv := []
    catInv := [{ sailing_id := "S", category_code := "CO3", capacity := 10, held := 1,
                 confirmed := 0 }] }

/-- C8 counterexample: confirming the expired category-bucket hold `b8` does
NOT fail with `HoldExpired` (the sweep already cancelled it, so the error is
the invalid-state conflict), and the category bucket's `held` counter is NOT
decremented — it stays 1. -/
theorem confirm_expired_hold_counterexample :
    (confirmBooking 10 "b8" st8).2 = .error (.invalidState "cancelled")
    ∧ ¬ (confirmBooking 10 "b8" st8).2 = .error .holdExpired
    ∧ catHeldOf st8.catInv "S" "CO3" = 1
    ∧ catHeldOf (confirmBooking 10 "b8" st8).1.catInv "S" "CO3" = 1 := by
  refine ⟨by decide, by decide, by decide, by decide⟩

/-- Witness for the amended C8 at the concrete expired booking `b8`. -/
theorem confirm_expired_hold_witness :
    (confirmBooking 10 b8.id { bookings := [b8], inv := [], catInv := st8.catInv }).2 =
        .error (.invalidState "cancelled")
    ∧ (confirmBooking 10 b8.id
          { bookings := [b8], inv := [], catInv := st8.catInv }).1.bookings =
        [{ b8 with status := "cancelled", updated_at := 10, hold_expires_at := none }]
    ∧ (confirmBooking 10 b8.id { bookings := [b8], inv := [], catInv := st8.catInv }).1.catInv =
        st8.catInv
    ∧ heldOf (confirmBooking 10 b8.id
            { bookings := [b8], inv := [], catInv := st8.catInv }).1.inv
          b8.sailing_id b8.cabin_type =
        (if 0 < heldOf [] b8.sailing_id b8.cabin_type then
          heldOf [] b8.sailing_id b8.cabin_type - 1
         else heldOf [] b8.sailing_id b8.cabin_type)
    ∧ confirmedOf (confirmBooking 10 b8.id
            { bookings := [b8], inv := [], catInv := st8.catInv }).1.inv
          b8.sailing_id b8.cabin_type =
        confirmedOf [] b8.sailing_id b8.cabin_type :=
  confirm_expired_hold 10 5 b8 [] st8.catInv rfl rfl (by decide)

/-! ## C2 — quote totals invariant -/

/-- The Quote invariant of the spec:
`total = subtotal - discounts + taxes_fees` and `subtotal` is the sum of
exactly the lines whose code starts with `"fare."`. -/
def QuoteInvariant (q : Quote) : Prop :=
  q.total = q.subtotal - q.discounts + q.taxes_fees
  ∧ q.subtotal =
      ((q.lines.filter (fun l => pyStartsWith l.code "fare.")).map (fun l => l.amount)).sum

/-- Structural shape of every quote `quote_with_overrides` produces: fare
lines summing to the subtotal, then an optional `discount` line of
`-discounts` (with `discounts ≥ 0`), then an optional `taxes_fees` line. -/
def WFQuote (q : Quote) : Prop :=
  0 ≤ q.discounts
  ∧ q.total = q.subtotal - q.discounts + q.taxes_fees
  ∧ ∃ fl dd td,
      (∀ l ∈ fl, pyStartsWith l.code "fare." = true)
      ∧ ((fl.map (fun l => l.amount)).sum = q.subtotal)
      ∧ q.lines = fl
          ++ (if q.discounts = 0 then [] else [⟨"discount", dd, -q.discounts⟩])
          ++ (if q.taxes_fees = 0 then [] else [⟨"taxes_fees", td, q.taxes_fees⟩])

theorem discountRate_nonneg (coupon loyalty : Option String) (cc : ℤ) :
    0 ≤ discountRate coupon loyalty cc := by
  simp only [discountRate]
  split <;> split <;> split <;> split <;> norm_num [le_max_iff]

theorem finishQuote_wf (cur : String) (fl : List QuoteLine) (st : ℤ) (rate : ℚ)
    (hfl : ∀ l ∈ fl, pyStartsWith l.code "fare." = true)
    (hsum : (fl.map (fun l => l.amount)).sum = st)
    (hst : 0 ≤ st) (hrate : 0 ≤ rate) :
    WFQuote (finishQuote cur fl st rate) := by
  have hd : 0 ≤ roundHalfEven ((st : ℚ) * rate) :=
    roundHalfEven_nonneg (mul_nonneg (by exact_mod_cast hst) hrate)
  refine ⟨hd, ?_, fl, _, _, hfl, hsum, rfl⟩
  simp only [finishQuote]

theorem wf_invariant (q : Quote) (h : WFQuote q) : QuoteInvariant q := by
  obtain ⟨hd, ht, fl, dd, td, hfare, hsum, hlines⟩ := h
  refine ⟨ht, ?_⟩
  rw [hlines, List.filter_append, List.filter_append]
  have h1 : fl.filter (fun l => pyStartsWith l.code "fare.") = fl :=
    List.filter_eq_self.mpr hfare
  have h2 : (if q.discounts = 0 then ([] : List QuoteLine)
      else [⟨"discount", dd, -q.discounts⟩]).filter
        (fun l => pyStartsWith l.code "fare.") = [] := by
    split <;> simp [pyStartsWith]
  have h3 : (if q.taxes_fees = 0 then ([] : List QuoteLine)
      else [⟨"taxes_fees", td, q.taxes_fees⟩]).filter
        (fun l => pyStartsWith l.code "fare.") = [] := by
    split <;> simp [pyStartsWith]
  rw [h1, h2, h3]
  simp [hsum]

theorem isPrefixOf_append_self (l t : List Char) : l.isPrefixOf (l ++ t) = true := by
  induction l with
  | nil => simp [List.isPrefixOf]
  | cons c cs ih => simpa [List.isPrefixOf] using ih

theorem fareCategory_startsWith (code pt : String) :
    pyStartsWith ("fare.category." ++ code ++ "." ++ pt) "fare." = true := by
  unfold pyStartsWith
  rw [String.data_append, String.data_append, String.data_append,
    (by decide : ("fare.category." : String).data = "fare.".data ++ "category.".data)]
  simp only [List.append_assoc]
  exact isPrefixOf_append_self _ _

theorem countPax_nonneg (guests : List Guest) (p : Paxtype) : 0 ≤ countPax guests p := by
  unfold countPax
  exact_mod_cast Nat.zero_le _

theorem cabinFold_spec (base : Paxtype → ℤ) (cm dm : ℚ) (guests : List Guest)
    (hbase : ∀ p, 0 ≤ base p) (hcm : 0 ≤ cm) (hdm : 0 ≤ dm) (ps : List Paxtype)
    (acc : List QuoteLine × ℤ)
    (hmem : ∀ l ∈ acc.1, pyStartsWith l.code "fare." = true)
    (hsum : (acc.1.map (fun l => l.amount)).sum = acc.2)
    (hnn : 0 ≤ acc.2) :
    (∀ l ∈ (ps.foldl
        (fun acc p =>
          let count := countPax guests p
          if count = 0 then acc
          else
            let amount := roundHalfEven ((base p : ℚ) * cm * dm) * count
            (acc.1 ++ [{ code := "fare." ++ paxName p
                         description := "Base fare (" ++ paxName p ++ ") x" ++ toString count
                         amount := amount }],
             acc.2 + amount)) acc).1, pyStartsWith l.code "fare." = true)
    ∧ ((ps.foldl
        (fun acc p =>
          let count := countPax guests p
          if count = 0 then acc
          else
            let amount := roundHalfEven ((base p : ℚ) * cm * dm) * count
            (acc.1 ++ [{ code := "fare." ++ paxName p
                         description := "Base fare (" ++ paxName p ++ ") x" ++ toString count
                         amount := amount }],
             acc.2 + amount)) acc).1.map (fun l => l.amount)).sum =
        (ps.foldl
        (fun acc p =>
          let count := countPax guests p
          if count = 0 then acc
          else
            let amount := roundHalfEven ((base p : ℚ) * cm * dm) * count
            (acc.1 ++ [{ code := "fare." ++ paxName p
                         description := "Base fare (" ++ paxName p ++ ") x" ++ toString count
                         amount := amount }],
             acc.2 + amount)) acc).2
    ∧ 0 ≤ (ps.foldl
        (fun acc p =>
          let count := countPax guests p
          if count = 0 then acc
          else
            let amount := roundHalfEven ((base p : ℚ) * cm * dm) * count
            (acc.1 ++ [{ code := "fare." ++ paxName p
                         description := "Base fare (" ++ paxName p ++ ") x" ++ toString count
                         amount := amount }],
             acc.2 + amount)) acc).2 := by
  induction ps generalizing acc with
  | nil => exact ⟨hmem, hsum, hnn⟩
  | cons p ps ih =>
    simp only [List.foldl_cons]
    by_cases hc : countPax guests p = 0
    · simp only [hc, if_pos rfl]
      exact ih acc hmem hsum hnn
    · have hamt : 0 ≤ roundHalfEven ((base p : ℚ) * cm * dm) * countPax guests p :=
        mul_nonneg
          (roundHalfEven_nonneg (mul_nonneg (mul_nonneg (by exact_mod_cast hbase p) hcm) hdm))
          (countPax_nonneg guests p)
      simp only [if_neg hc]
      refine ih _ ?_ ?_ ?_
      · intro l hl
        rcases List.mem_append.mp hl with h | h
        · exact hmem l h
        · rcases List.mem_singleton.mp h with rfl
          exact pyStartsWith_append "fare." (paxName p)
      · simp only [List.map_append, List.sum_append, hsum, List.map_cons, List.map_nil,
          List.sum_cons, List.sum_nil]
        ring
      · exact add_nonneg hnn hamt

theorem cabinFareLines_spec (base : Paxtype → ℤ) (cm dm : ℚ) (guests : List Guest)
    (hbase : ∀ p, 0 ≤ base p) (hcm : 0 ≤ cm) (hdm : 0 ≤ dm) :
    (∀ l ∈ (cabinFareLines base cm dm guests).1, pyStartsWith l.code "fare." = true)
    ∧ ((cabinFareLines base cm dm guests).1.map (fun l => l.amount)).sum =
        (cabinFareLines base cm dm guests).2
    ∧ 0 ≤ (cabinFareLines base cm dm guests).2 := by
  unfold cabinFareLines
  exact cabinFold_spec base cm dm guests hbase hcm hdm
    [Paxtype.adult, Paxtype.child, Paxtype.infant] ([], 0)
    (by intro l hl; exact absurd hl (List.not_mem_nil l)) rfl le_rfl

/-- The validations the pricing-service admin endpoints enforce on tenant
overrides: base-fare amounts `≥ 0` (`BaseFareIn.amount`, `Field(ge=0)`),
cabin multipliers `> 0` (`CabinMultiplierIn.multiplier`, `Field(gt=0)`), and a
positive demand multiplier (here only non-negativity is needed). -/
def ValidOverrides : Option PricingOverrides → Prop
  | none => True
  | some ov =>
    (∀ e ∈ ((ov.base_by_pax).getD []), 0 ≤ e.2)
    ∧ (∀ e ∈ ((ov.cabin_multiplier).getD []), 0 ≤ e.2)
    ∧ (∀ m, ov.demand_multiplier = some m → (0 : ℚ) ≤ m)

theorem alistGet?_mem [DecidableEq κ] (l : List (κ × α)) (k : κ) (v : α)
    (h : alistGet? l k = some v) : (k, v) ∈ l := by
  unfold alistGet? at h
  cases hf : l.find? (fun e => e.1 = k) with
  | none => rw [hf] at h; exact absurd h (by simp)
  | some e =>
    rw [hf] at h
    simp only [Option.map_some', Option.some.injEq] at h
    have hmem := List.mem_of_find?_eq_some hf
    have hpred := List.find?_some hf
    simp only [decide_eq_true_eq] at hpred
    have : e = (k, v) := by
      obtain ⟨e1, e2⟩ := e
      simp only at hpred h
      rw [hpred, h]
    exact this ▸ hmem

theorem defaultCabinMultiplier_nonneg (ct : CabinType) : 0 ≤ defaultCabinMultiplier ct := by
  cases ct <;> norm_num [defaultCabinMultiplier]

theorem defaultBaseByPax_nonneg (p : Paxtype) : 0 ≤ defaultBaseByPax p := by
  cases p <;> norm_num [defaultBaseByPax]

theorem demandMultiplier_nonneg (sd : Option ℤ) (today : ℤ) :
    0 ≤ demandMultiplier sd today := by
  unfold demandMultiplier
  cases sd with
  | none => norm_num
  | some d => dsimp only; split <;> [norm_num; (split <;> [norm_num; (split <;> norm_num)])]

theorem effCabinMult_nonneg (req : QuoteRequest) (ov : Option PricingOverrides)
    (hval : ValidOverrides ov) : 0 ≤ effCabinMult req ov := by
  unfold effCabinMult
  cases ov with
  | none => exact defaultCabinMultiplier_nonneg _
  | some o =>
    obtain ⟨_, hcm, _⟩ := hval
    dsimp only
    cases hx : o.cabin_multiplier with
    | none => exact defaultCabinMultiplier_nonneg _
    | some cm =>
      dsimp only
      cases hy : alistGet? cm req.cabin_type with
      | none => simp only [hy, Option.getD_none]; exact defaultCabinMultiplier_nonneg _
      | some m =>
        simp only [hy, Option.getD_some]
        exact hcm (req.cabin_type, m) (by rw [hx]; exact alistGet?_mem cm req.cabin_type m hy)

theorem effDemandMult_nonneg (req : QuoteRequest) (today : ℤ) (ov : Option PricingOverrides)
    (hval : ValidOverrides ov) : 0 ≤ effDemandMult req today ov := by
  unfold effDemandMult
  cases ov with
  | none => exact demandMultiplier_nonneg _ _
  | some o =>
    obtain ⟨_, _, hdm⟩ := hval
    dsimp only
    cases hx : o.demand_multiplier with
    | none => exact demandMultiplier_nonneg _ _
    | some m => exact hdm m hx

theorem effBase_nonneg (ov : Option PricingOverrides) (hval : ValidOverrides ov) (p : Paxtype) :
    0 ≤ effBase ov p := by
  unfold effBase
  cases ov with
  | none => exact defaultBaseByPax_nonneg _
  | some o =>
    obtain ⟨hb, _, _⟩ := hval
    dsimp only
    cases hx : o.base_by_pax with
    | none => exact defaultBaseByPax_nonneg _
    | some bl =>
      dsimp only
      cases hy : alistGet? bl p with
      | none => simp only [hy, Option.getD_none]; exact defaultBaseByPax_nonneg _
      | some v =>
        simp only [hy, Option.getD_some]
        exact hb (p, v) (by rw [hx]; exact alistGet?_mem bl p v hy)

theorem cabinQuote_wf (req : QuoteRequest) (today : ℤ) (ov : Option PricingOverrides)
    (q : Quote) (hval : ValidOverrides ov) (hq : cabinQuote req today ov = .ok q) :
    WFQuote q := by
  unfold cabinQuote at hq
  simp only [Except.ok.injEq] at hq
  subst hq
  obtain ⟨hmem, hsum, hnn⟩ := cabinFareLines_spec (effBase ov) (effCabinMult req ov)
    (effDemandMult req today ov) req.guests (effBase_nonneg ov hval)
    (effCabinMult_nonneg req ov hval) (effDemandMult_nonneg req today ov hval)
  exact finishQuote_wf _ _ _ _ hmem hsum hnn
    (discountRate_nonneg req.coupon_code req.loyalty_tier (countPax req.guests Paxtype.child))

theorem categoryBuild_wf (req : QuoteRequest) (code : String) (best : CategoryPriceRule)
    (q : Quote) (hq : categoryBuild req code best = .ok q) : WFQuote q := by
  unfold categoryBuild at hq
  by_cases hneg : best.price_per_person < 0
  · rw [if_pos hneg] at hq
    exact absurd hq (by simp)
  · rw [if_neg hneg] at hq
    simp only [Except.ok.injEq] at hq
    subst hq
    refine finishQuote_wf _ _ _ _ ?_ ?_ ?_
      (discountRate_nonneg req.coupon_code req.loyalty_tier (countPax req.guests Paxtype.child))
    · intro l hl
      rcases List.mem_singleton.mp hl with rfl
      exact fareCategory_startsWith code (normPt best.price_type)
    · simp
    · have h1 : (0 : ℤ) ≤ max (req.guests.length : ℤ) (max 1 best.min_guests) :=
        le_trans (le_trans zero_le_one (le_max_left 1 best.min_guests))
          (le_max_right (req.guests.length : ℤ) (max 1 best.min_guests))
      exact mul_nonneg (by omega) h1

/-- Every quote that `quote_with_overrides` returns (under the
API-validated overrides) is well-formed. -/
theorem quoteWithOverrides_wf (req : QuoteRequest) (today : ℤ) (ov : Option PricingOverrides)
    (q : Quote) (hval : ValidOverrides ov) (hq : quoteWithOverrides req today ov = .ok q) :
    WFQuote q := by
  unfold quoteWithOverrides at hq
  split at hq
  · exact absurd hq (by simp)
  · split at hq
    · split at hq
      · split at hq
        · exact cabinQuote_wf _ _ _ _ hval hq
        · simp only [] at hq
          repeat' split at hq
          all_goals
            first
              | exact categoryBuild_wf _ _ _ _ hq
              | exact cabinQuote_wf _ _ _ _ hval hq
      · exact cabinQuote_wf _ _ _ _ hval hq
    · exact cabinQuote_wf _ _ _ _ hval hq

theorem moneyConvertCents_nonpos (a : ℤ) (rate : ℚ) (isMul : Bool)
    (ha : a ≤ 0) (hr : 0 < rate) : moneyConvertCents a rate isMul ≤ 0 := by
  unfold moneyConvertCents
  apply roundHalfUp_nonpos
  have ha' : (a : ℚ) ≤ 0 := by exact_mod_cast ha
  cases isMul with
  | true =>
    simp only [if_pos rfl, if_true]
    exact mul_nonpos_iff.mpr (Or.inr ⟨ha', le_of_lt hr⟩)
  | false =>
    simp only [if_false, Bool.false_eq_true, if_neg]
    exact div_nonpos_iff.mpr (Or.inr ⟨ha', le_of_lt hr⟩)

theorem convert_wf_invariant (rates : List FxRow) (q : Quote) (tgt : String) (q2 : Quote)
    (hwf : WFQuote q) (hc : convertQuoteCurrency rates q tgt = .ok q2) :
    QuoteInvariant q2 := by
  unfold convertQuoteCurrency at hc
  cases hsrc : normalizeCurrency q.currency "quote.currency" with
  | error e => simp [hsrc] at hc
  | ok src =>
    simp only [hsrc] at hc
    cases hdst : normalizeCurrency tgt "currency" with
    | error e => simp [hdst] at hc
    | ok dst =>
      simp only [hdst] at hc
      by_cases hsd : src = dst
      · rw [if_pos hsd] at hc
        simp only [Except.ok.injEq] at hc
        subst hc
        exact wf_invariant q hwf
      · rw [if_neg hsd] at hc
        cases hfx : getFxRate rates src dst with
        | none => simp [hfx] at hc
        | some pr =>
          obtain ⟨rate, isMul⟩ := pr
          simp only [hfx] at hc
          by_cases hrate : rate ≤ 0
          · rw [if_pos hrate] at hc
            exact absurd hc (by simp)
          · rw [if_neg hrate] at hc
            simp only [Except.ok.injEq] at hc
            subst hc
            obtain ⟨hd, ht, fl, dd, td, hfare, hsum, hlines⟩ := hwf
            have hrpos : (0 : ℚ) < rate := lt_of_not_le hrate
            refine ⟨?_, rfl⟩
            simp only []
            rw [hlines]
            have hne_d : ∀ l ∈ fl, l.code ≠ "discount" := by
              intro l hl h
              have hx := hfare l hl
              rw [h] at hx
              exact absurd hx (by decide)
            have hne_t : ∀ l ∈ fl, l.code ≠ "taxes_fees" := by
              intro l hl h
              have hx := hfare l hl
              rw [h] at hx
              exact absurd hx (by decide)
            have hflFare : (fl.map (convLine rate isMul)).filter
                (fun l => pyStartsWith l.code "fare.") = fl.map (convLine rate isMul) := by
              apply List.filter_eq_self.mpr
              intro x hx
              obtain ⟨l, hl, rfl⟩ := List.mem_map.mp hx
              exact hfare l hl
            have hflD : (fl.map (convLine rate isMul)).filter
                (fun l => decide (l.code = "discount") && decide (l.amount < 0)) = [] := by
              apply List.filter_eq_nil.mpr
              intro x hx
              obtain ⟨l, hl, rfl⟩ := List.mem_map.mp hx
              simp only [Bool.and_eq_true, decide_eq_true_eq, not_and]
              intro h
              exact absurd h (hne_d l hl)
            have hflT : (fl.map (convLine rate isMul)).filter
                (fun l => decide (l.code = "taxes_fees")) = [] := by
              apply List.filter_eq_nil.mpr
              intro x hx
              obtain ⟨l, hl, rfl⟩ := List.mem_map.mp hx
              simp only [decide_eq_true_eq]
              exact hne_t l hl
            by_cases hd0 : q.discounts = 0
            · by_cases ht0 : q.taxes_fees = 0
              · simp +decide [hd0, ht0, List.filter_append, List.map_append,
                  hflFare, hflD, hflT]
              · simp +decide [hd0, ht0, List.filter_append, List.map_append,
                  hflFare, hflD, hflT, List.filter_cons, convLine]
            · have hdneg : moneyConvertCents (-q.discounts) rate isMul ≤ 0 :=
                moneyConvertCents_nonpos _ _ _ (by omega) hrpos
              by_cases hdlt : moneyConvertCents (-q.discounts) rate isMul < 0
              · by_cases ht0 : q.taxes_fees = 0 <;>
                  simp +decide [hd0, ht0, hdlt, List.filter_append, List.map_append,
                    hflFare, hflD, hflT, List.filter_cons, convLine] <;>
                  ring
              · have hdz : moneyConvertCents (-q.discounts) rate isMul = 0 := by omega
                by_cases ht0 : q.taxes_fees = 0 <;>
                  simp +decide [hd0, ht0, hdlt, hdz, List.filter_append, List.map_append,
                    hflFare, hflD, hflT, List.filter_cons, convLine] <;>
                  ring

/-- C2: for every quote request that succeeds (under the API-validated tenant
overrides), `total = subtotal - discounts + taxes_fees` and `subtotal` is the
sum of exactly the `fare.`-prefixed lines — both for the directly computed
quote and for a currency-converted quote whose aggregates were recomputed by
re-summing the converted lines. -/
theorem quote_totals_invariant (req : QuoteRequest) (today : ℤ)
    (ov : Option PricingOverrides) (rates : List FxRow) (target : String) (q q2 : Quote)
    (hval : ValidOverrides ov)
    (hq : quoteWithOverrides req today ov = .ok q)
    (hconv : convertQuoteCurrency rates q target = .ok q2) :
    QuoteInvariant q ∧ QuoteInvariant q2 :=
  have hwf := quoteWithOverrides_wf req today ov q hval hq
  ⟨wf_invariant q hwf, convert_wf_invariant rates q target q2 hwf hconv⟩

def reqC2 : QuoteRequest :=
  { sailing_date := none, cabin_type := .inside, guests := [{ paxtype := .adult }]
    coupon_code := none, loyalty_tier := none, cabin_category_code := none
    currency := "USD", price_type := "regular" }

/-- Witness for C2: a one-adult default-configuration quote; conversion to the
quote's own currency returns it unchanged. -/
theorem quote_totals_invariant_witness :
    ∃ q q2, quoteWithOverrides reqC2 0 none = .ok q
      ∧ convertQuoteCurrency [] q "USD" = .ok q2
      ∧ QuoteInvariant q ∧ QuoteInvariant q2 := by
  refine ⟨_, _, rfl, rfl, ?_⟩
  exact quote_totals_invariant reqC2 0 none [] "USD" _ _ trivial rfl rfl

/-! ## C6 — missing FX rate -/

/-- C6: when the caller requests a currency (`payload.currency` truthy), a
tenant is known, the computed quote's currency differs from the requested one,
and the tenant's FX table has neither a direct nor an inverse rate for the
pair, `create_quote` fails with the 400-class `Missing FX rate` error — it
never returns a quote in the unconverted source currency. -/
theorem missing_fx_rate_fails (stores : PricingStores) (dc : Option String)
    (payload : QuotePayloadIn) (xcid : Option String) (today : ℤ)
    (q : Quote) (src dst c : String)
    (hcur : payload.currency = some c) (hc : c ≠ "")
    (hcompany : companyKey xcid ≠ "")
    (hq : quoteWithOverrides (createQuoteStage stores dc payload xcid).1 today
        (createQuoteStage stores dc payload xcid).2 = .ok q)
    (hsrc : normalizeCurrency q.currency "quote.currency" = .ok src)
    (hdst : normalizeCurrency c "currency" = .ok dst)
    (hne : src ≠ dst)
    (hfx : getFxRate ((alistGet? stores.fxRatesByCompany (companyKey xcid)).getD []) src dst
      = none) :
    createQuote stores dc payload xcid today = .error (.missingFxRate src dst) := by
  unfold createQuote
  simp only [hq]
  have hcur' : payload.currency.getD "" = c := by rw [hcur]; rfl
  rw [hcur', if_pos ⟨hc, hcompany⟩]
  unfold convertQuoteCurrency
  simp only [hsrc, hdst]
  rw [if_neg hne]
  simp only [hfx]

def ovC6 : PricingOverrides :=
  { category_prices := some
      [{ category_code := "CO3", currency := "USD", min_guests := 1,
         price_per_person := 10000 }] }

def storesC6 : PricingStores := { overridesByCompany := [("t1", ovC6)] }

def payloadC6 : QuotePayloadIn :=
  { cabin_category_code := some "CO3", guests := [{ paxtype := .adult }]
    currency := some "EUR" }

/-- Witness for C6: tenant `t1` prices `CO3` in USD, the caller asks for EUR,
and the FX table is empty, so the quote fails with `Missing FX rate for
USD->EUR`. -/
theorem missing_fx_rate_fails_witness :
    createQuote storesC6 none payloadC6 (some "t1") 0 =
      .error (.missingFxRate "USD" "EUR") :=
  missing_fx_rate_fails storesC6 none payloadC6 (some "t1") 0 _ "USD" "EUR" "EUR"
    rfl (by decide) (by decide) rfl rfl rfl (by decide) rfl

/-! ## C9 — round-trip currency conversion at rate 0.90 -/

/-- The stored FX table of the round-trip scenario: one direct rate
`USD -> EUR = 0.90`; converting back finds it as the inverse and divides. -/
def fxC9 : List FxRow := [{ base := "USD", quote := "EUR", rate := 9/10 }]

/-- One cent amount, converted `USD -> EUR` at the direct rate 0.90 (mul) and
back `EUR -> USD` via the inverse lookup (div), lands within one minor unit of
where it started. -/
theorem roundtrip_cent_bound (a : ℤ) :
    |moneyConvertCents (moneyConvertCents a (9/10) true) (9/10) false - a| ≤ 1 := by
  have h1 := abs_roundHalfUp_sub_le ((a : ℚ) * (9/10))
  have h2 := abs_roundHalfUp_sub_le ((roundHalfUp ((a : ℚ) * (9/10)) : ℚ) / (9/10))
  set b := roundHalfUp ((a : ℚ) * (9/10)) with hb
  set a2 := roundHalfUp ((b : ℚ) / (9/10)) with ha2
  have key : |(a2 : ℚ) - a| ≤ 19/18 := by
    have hsplit : (a2 : ℚ) - a = ((a2 : ℚ) - (b : ℚ) / (9/10)) + ((b : ℚ) / (9/10) - a) := by
      ring
    have htail : (b : ℚ) / (9/10) - a = (10/9) * ((b : ℚ) - (a : ℚ) * (9/10)) := by
      ring
    calc |(a2 : ℚ) - a|
        ≤ |(a2 : ℚ) - (b : ℚ) / (9/10)| + |(b : ℚ) / (9/10) - a| := by
          rw [hsplit]; exact abs_add _ _
      _ ≤ 1/2 + (10/9) * |(b : ℚ) - (a : ℚ) * (9/10)| := by
          rw [htail, abs_mul]
          have : |(10/9 : ℚ)| = 10/9 := by norm_num
          rw [this]
          linarith [h2]
      _ ≤ 1/2 + (10/9) * (1/2) := by
          have := mul_le_mul_of_nonneg_left h1 (by norm_num : (0 : ℚ) ≤ 10/9)
          linarith
      _ = 19/18 := by norm_num
  have habs : |a2 - a| ≤ 1 := by
    by_contra hgt
    push_neg at hgt
    have h2le : (2 : ℤ) ≤ |a2 - a| := by omega
    have hcast : ((|a2 - a| : ℤ) : ℚ) = |(a2 : ℚ) - (a : ℚ)| := by
      push_cast
      ring_nf
    have h2q : (2 : ℚ) ≤ |(a2 : ℚ) - (a : ℚ)| := by
      rw [← hcast]
      exact_mod_cast h2le
    linarith
  simpa [moneyConvertCents, ← hb, ← ha2] using habs

theorem roundtrip_line_bound (l : List QuoteLine) (pr : QuoteLine × QuoteLine)
    (hpr : pr ∈ (l.map
      (fun x => convLine (9/10) false (convLine (9/10) true x))).zip l) :
    |pr.1.amount - pr.2.amount| ≤ 1 := by
  induction l with
  | nil => exact absurd hpr (by simp)
  | cons x xs ih =>
    simp only [List.map_cons, List.zip_cons_cons, List.mem_cons] at hpr
    rcases hpr with rfl | hpr
    · exact roundtrip_cent_bound x.amount
    · exact ih hpr

theorem roundtrip_sum_bound (l : List QuoteLine) :
    |(((l.map (fun x => convLine (9/10) false (convLine (9/10) true x))).map
        (fun x => x.amount)).sum - (l.map (fun x => x.amount)).sum)| ≤ (l.length : ℤ) := by
  induction l with
  | nil => simp
  | cons x xs ih =>
    simp only [List.map_cons, List.sum_cons, List.length_cons, convLine] at ih ⊢
    have hx := roundtrip_cent_bound x.amount
    rw [abs_le] at hx ih ⊢
    push_cast
    push_cast at ih
    constructor <;> [linarith [hx.1, ih.1]; linarith [hx.2, ih.2]]

theorem wf_sum_lines (q : Quote) (h : WFQuote q) :
    (q.lines.map (fun l => l.amount)).sum = q.total := by
  obtain ⟨hd, ht, fl, dd, td, _, hsum, hlines⟩ := h
  rw [hlines, ht]
  by_cases hd0 : q.discounts = 0 <;> by_cases ht0 : q.taxes_fees = 0 <;>
    simp [hd0, ht0, hsum] <;> omega

/-- The successful branch of `_convert_quote_currency` as a function of the
target currency, the resolved rate and its direction: every line is converted
with `convLine` and the aggregates are recomputed by re-summing (main.py
lines 188-202). -/
def convQuote (dst : String) (rate : ℚ) (isMul : Bool) (q : Quote) : Quote :=
  let cl := q.lines.map (convLine rate isMul)
  { currency := dst
    subtotal :=
      ((cl.filter (fun l => pyStartsWith l.code "fare.")).map (fun l => l.amount)).sum
    discounts :=
      ((cl.filter (fun l => l.code = "discount" ∧ l.amount < 0)).map (fun l => -l.amount)).sum
    taxes_fees :=
      ((cl.filter (fun l => l.code = "taxes_fees")).map (fun l => l.amount)).sum
    total := (cl.map (fun l => l.amount)).sum
    lines := cl }

theorem convertQuoteCurrency_eval (rates : List FxRow) (q : Quote) (t src dst : String)
    (rate : ℚ) (isMul : Bool)
    (h1 : normalizeCurrency q.currency "quote.currency" = .ok src)
    (h2 : normalizeCurrency t "currency" = .ok dst)
    (hne : ¬ src = dst)
    (hfx : getFxRate rates src dst = some (rate, isMul))
    (hr : ¬ rate ≤ 0) :
    convertQuoteCurrency rates q t = .ok (convQuote dst rate isMul q) := by
  simp only [convertQuoteCurrency, h1, h2, if_neg hne, hfx, if_neg hr, convQuote]

/-- A concrete USD quote: one category fare line of 185 cents and a
taxes-and-fees line of 15 cents (the shape produced by `_category_build`
for one adult on a 185-cent rule with the default 8% tax rate). -/
def qC9 : Quote :=
  { currency := "USD", subtotal := 185, discounts := 0, taxes_fees := 15, total := 200,
    lines := [{ code := "fare.category.CO3.regular", description := "Adult x 1", amount := 185 },
              { code := "taxes_fees", description := "Taxes and fees", amount := 15 }] }

/-- `qC9` converted USD to EUR at the direct 0.90 rate (multiply, half-up):
185 goes to 167 and 15 goes to 14. -/
def q1C9 : Quote :=
  { currency := "EUR", subtotal := 167, discounts := 0, taxes_fees := 14, total := 181,
    lines := [{ code := "fare.category.CO3.regular", description := "Adult x 1", amount := 167 },
              { code := "taxes_fees", description := "Taxes and fees", amount := 14 }] }

/-- `q1C9` converted back EUR to USD via the inverse lookup (divide, half-up):
167 goes to 186 and 14 goes to 16, so the round-trip total is 202. -/
def q2C9 : Quote :=
  { currency := "USD", subtotal := 186, discounts := 0, taxes_fees := 16, total := 202,
    lines := [{ code := "fare.category.CO3.regular", description := "Adult x 1", amount := 186 },
              { code := "taxes_fees", description := "Taxes and fees", amount := 16 }] }

theorem convQuote_qC9 : convQuote "EUR" (9/10) true qC9 = q1C9 := by
  have m1 : moneyConvertCents 185 (9/10) true = 167 := by
    norm_num [moneyConvertCents, roundHalfUp, Int.floor_eq_iff]
  have m2 : moneyConvertCents 15 (9/10) true = 14 := by
    norm_num [moneyConvertCents, roundHalfUp, Int.floor_eq_iff]
  simp only [convQuote, qC9, q1C9, convLine, List.map_cons, List.map_nil, m1, m2]
  norm_num
  decide

theorem convQuote_q1C9 : convQuote "USD" (9/10) false q1C9 = q2C9 := by
  have m3 : moneyConvertCents 167 (9/10) false = 186 := by
    norm_num [moneyConvertCents, roundHalfUp, Int.floor_eq_iff]
  have m4 : moneyConvertCents 14 (9/10) false = 16 := by
    norm_num [moneyConvertCents, roundHalfUp, Int.floor_eq_iff]
  simp only [convQuote, q1C9, q2C9, convLine, List.map_cons, List.map_nil]
  norm_num [m3, m4]
  decide

/-- Counterexample to the one-minor-unit round-trip total claim: the USD quote
`qC9` (total 200 cents, two lines) converts to EUR at the stored 0.90 rate and
back via the inverse lookup to a total of 202 cents, which differs from the
original total by 2 minor units. -/
theorem roundtrip_total_counterexample :
    qC9.currency = "USD" ∧
    convertQuoteCurrency fxC9 qC9 "EUR" = .ok q1C9 ∧
    convertQuoteCurrency fxC9 q1C9 "USD" = .ok q2C9 ∧
    qC9.total = 200 ∧ q2C9.total = 202 ∧
    ¬ |q2C9.total - qC9.total| ≤ 1 := by
  refine ⟨rfl, ?_, ?_, rfl, rfl, by decide⟩
  · rw [convertQuoteCurrency_eval fxC9 qC9 "EUR" "USD" "EUR" (9/10) true rfl rfl
      (by decide) rfl (by norm_num), convQuote_qC9]
  · rw [convertQuoteCurrency_eval fxC9 q1C9 "USD" "EUR" "USD" (9/10) false rfl rfl
      (by decide) rfl (by norm_num), convQuote_q1C9]

/-- C9 (amended): converting a USD quote to EUR at the stored direct rate 0.90
(each line multiplied by the rate and rounded half-up) and back via the inverse
lookup of the same stored row (each line divided by the rate and rounded
half-up) reproduces each line amount to within one minor unit, and the
re-summed total to within one minor unit PER LINE - not one minor unit overall:
the per-line half-up rounding errors accumulate across lines, and
`roundtrip_total_counterexample` exhibits a two-line quote whose round-trip
total drifts by 2. -/
theorem roundtrip_conversion (q : Quote) (hcur : q.currency = "USD")
    (htot : q.total = (q.lines.map (fun l => l.amount)).sum) :
    ∃ q2,
      convertQuoteCurrency fxC9 q "EUR" = .ok (convQuote "EUR" (9/10) true q) ∧
      convertQuoteCurrency fxC9 (convQuote "EUR" (9/10) true q) "USD" = .ok q2 ∧
      (∀ pr ∈ q2.lines.zip q.lines, |pr.1.amount - pr.2.amount| ≤ 1) ∧
      |q2.total - q.total| ≤ (q.lines.length : ℤ) := by
  refine ⟨convQuote "USD" (9/10) false (convQuote "EUR" (9/10) true q), ?_, ?_, ?_, ?_⟩
  · exact convertQuoteCurrency_eval fxC9 q "EUR" "USD" "EUR" (9/10) true
      (by rw [hcur]; decide) rfl (by decide) rfl (by norm_num)
  · exact convertQuoteCurrency_eval fxC9 (convQuote "EUR" (9/10) true q) "USD" "EUR" "USD"
      (9/10) false rfl rfl (by decide) rfl (by norm_num)
  · intro pr hpr
    refine roundtrip_line_bound q.lines pr ?_
    simpa [convQuote, convLine, List.map_map, Function.comp] using hpr
  · rw [htot]
    simpa [convQuote, convLine, List.map_map, Function.comp] using roundtrip_sum_bound q.lines

theorem roundtrip_conversion_witness :
    ∃ q2,
      convertQuoteCurrency fxC9 qC9 "EUR" = .ok (convQuote "EUR" (9/10) true qC9) ∧
      convertQuoteCurrency fxC9 (convQuote "EUR" (9/10) true qC9) "USD" = .ok q2 ∧
      (∀ pr ∈ q2.lines.zip qC9.lines, |pr.1.amount - pr.2.amount| ≤ 1) ∧
      |q2.total - qC9.total| ≤ (qC9.lines.length : ℤ) :=
  roundtrip_conversion qC9 rfl (by decide)
